import Mathlib

/-!
Shallow embedding of the WarehouseRepSim AGV warehouse simulator
(package `agv_simulation`): the tile model (`models.py`), weighted A*
(`pathfinding.py`), the AGV movement machine (`agv.py`), the Dispatcher
(`dispatcher.py`) and the headless driver (`headless.py`), together with
theorems settling the frozen claims about them.

Modelling conventions:
* Python `(x, y)` integer pairs become `Pos := Int × Int`.
* Python `dict`s become association lists; assignment prepends a binding
  (`List.lookup` finds the newest one), membership is `List.lookup ≠ none`.
* Python object identity (`is`) on entities becomes equality of the
  entity's numeric id; cross references (`carried_by`, `current_job`,
  `assigned_agv`, a job's `cart`) are stored as ids and resolved against
  the simulation's entity lists, which in the simulator hold every live
  entity.
* Python floats carrying time and progress become rationals; the numeric
  quantities compared here (fill rates with capacities at most 8, edge
  costs 1 and 10) are exact in both representations.
* `while` loops become fuel recursion with a fuel argument that provably
  dominates the number of iterations the source loop can make.
-/

namespace WarehouseSim

/-- Grid position `(x, y)`. -/
abbrev Pos := Int × Int

/-- Manhattan distance `abs(ax - bx) + abs(ay - by)` used as the A*
heuristic and throughout the dispatcher. -/
def manhattan (a b : Pos) : Nat := (a.1 - b.1).natAbs + (a.2 - b.2).natAbs

/-- `enums.TileType`. -/
inductive TileType
  | empty
  | highway
  | parking
  | pick_station
  | box_depot
  | packoff
  | agv_spawn
  | cart_spawn
  | racking
deriving DecidableEq, Repr

/-- `models.Tile`: one square of the warehouse grid. -/
structure Tile where
  x : Int
  y : Int
  tile_type : TileType
  station_id : Option String
deriving DecidableEq, Repr

/-- The tile dictionary `dict[(x, y), Tile]` as an association list. -/
abbrev Tiles := List (Pos × Tile)

/-- The directed adjacency `dict[(x, y), set[(x, y)]]` as an association
list; the iteration order of a Python `set` is an arbitrary but fixed
order, modelled by the list order. -/
abbrev Graph := List (Pos × List Pos)

/-- `graph.get(current, set())`. -/
def adjacency (graph : Graph) (p : Pos) : List Pos :=
  (List.lookup p graph).getD []

/-! ## `models.Order` -/

/-- `models.Order`.  The constructor draws `picks` from the process
RNG; the draw is a parameter of `Order.make` below. -/
structure Order where
  order_id : Nat
  picks : List Nat
  stations_to_visit : List Nat
  completed_stations : List Nat
deriving DecidableEq, Repr

/-- `Order.__init__` with the RNG draw of `picks` passed in:
`stations_to_visit = sorted(set(picks))`, `completed_stations = []`. -/
def Order.make (id : Nat) (picks : List Nat) : Order :=
  { order_id := id
    picks := picks
    stations_to_visit := List.insertionSort (fun a b => a ≤ b) picks.dedup
    completed_stations := [] }

/-- `Order.items_at_station`: `self.picks.count(station_num)`. -/
def Order.items_at_station (o : Order) (station_num : Nat) : Nat :=
  o.picks.count station_num

/-- `Order.next_station`: first station of `stations_to_visit` not in
`completed_stations`, else `None`. -/
def Order.next_station (o : Order) : Option Nat :=
  o.stations_to_visit.find? (fun s => !(o.completed_stations.contains s))

/-- `Order.complete_station`: appends `station_num` to
`completed_stations` (no membership check). -/
def Order.complete_station (o : Order) (station_num : Nat) : Order :=
  { o with completed_stations := o.completed_stations ++ [station_num] }

/-- `Order.all_picked`: compares the *lengths* of `completed_stations`
and `stations_to_visit`. -/
def Order.all_picked (o : Order) : Bool :=
  o.completed_stations.length = o.stations_to_visit.length

/-! ## `pathfinding.astar`

Weighted A* with Manhattan heuristic.  The `heapq` priority queue holds
`(f, counter, node)` triples with pairwise-distinct counters, so a pop
returns the unique entry minimal in the lexicographic `(f, counter)`
order; `popMin` extracts exactly that entry from a plain list.  The
`blocked` set and the `tiles` mapping are passed as lists, the empty
list playing the role of both `None` and an empty (falsy) container. -/

/-- One `open_set` entry `(f, counter, node)`. -/
abbrev AStarEntry := Nat × Nat × Pos

/-- Lexicographic comparison on `(f, counter)`; counters are pairwise
distinct so the node component never takes part in the comparison,
exactly as in the Python tuple order backing `heapq`. -/
def entryLe (a b : AStarEntry) : Bool :=
  decide (a.1 < b.1) || (decide (a.1 = b.1) && decide (a.2.1 ≤ b.2.1))

/-- `heapq.heappop`: remove the `(f, counter)`-minimal entry. -/
def popMin : List AStarEntry → Option (AStarEntry × List AStarEntry)
  | [] => none
  | e :: es =>
    match popMin es with
    | none => some (e, [])
    | some (m, rest) =>
      if entryLe e m then some (e, es) else some (m, e :: rest)

/-- Mutable A* state: `open_set`, `came_from`, `g_score`, and the
tie-breaking counter. -/
structure AStarState where
  openList : List AStarEntry
  cameFrom : List (Pos × Pos)
  gScore : List (Pos × Nat)
  counter : Nat
deriving Repr

/-- `edge_cost = 1 if (tile and tile.tile_type == HIGHWAY) else 10`,
with the goal always entered at cost 1 and cost 1 everywhere when no
tile map is provided. -/
def edgeCost (tiles : Tiles) (goal neighbor : Pos) : Nat :=
  if tiles ≠ [] ∧ neighbor ≠ goal then
    match List.lookup neighbor tiles with
    | some tile => if tile.tile_type = TileType.highway then 1 else 10
    | none => 10
  else 1

/-- `tentative_g < g_score.get(neighbor, float("inf"))`. -/
def betterScore (gs : List (Pos × Nat)) (neighbor : Pos) (tentative : Nat) : Bool :=
  match List.lookup neighbor gs with
  | some gN => decide (tentative < gN)
  | none => true

/-- The relaxation body: record `came_from`/`g_score` (dict assignment
is modelled by prepending the newest binding) and `heappush`. -/
def pushState (st : AStarState) (goal neighbor : Pos) (tentative : Nat)
    (current : Pos) : AStarState :=
  { openList :=
      st.openList ++ [(tentative + manhattan neighbor goal, st.counter + 1, neighbor)]
    cameFrom := (neighbor, current) :: st.cameFrom
    gScore := (neighbor, tentative) :: st.gScore
    counter := st.counter + 1 }

/-- The body of `for neighbor in graph.get(current, set())`: skip
blocked non-goal nodes, compute the weighted edge cost, and relax.
`g_score[current]` is reread on every iteration in the source but can
never change during the neighbour loop (relaxing `current` itself would
need `tentative < gCur` with `tentative = gCur + cost` and `cost ≥ 1`),
so it enters once as `gCur`. -/
def relaxNeighbor (goal : Pos) (blocked : List Pos) (tiles : Tiles)
    (current : Pos) (gCur : Nat) (st : AStarState) (neighbor : Pos) :
    AStarState :=
  if blocked ≠ [] ∧ neighbor ∈ blocked ∧ neighbor ≠ goal then st
  else if betterScore st.gScore neighbor (gCur + edgeCost tiles goal neighbor) then
    pushState st goal neighbor (gCur + edgeCost tiles goal neighbor) current
  else st

/-- The path-reconstruction `while current in came_from` loop; builds
`[current, parent, grandparent, ...]`.  The fuel dominates the chain
length because `g_score` strictly decreases along `came_from` links. -/
def reconstruct (cf : List (Pos × Pos)) : Nat → Pos → List Pos
  | 0, cur => [cur]
  | fuel + 1, cur =>
    match List.lookup cur cf with
    | none => [cur]
    | some p => cur :: reconstruct cf fuel p

/-- The `while open_set` loop of `astar`. -/
def astarLoop (graph : Graph) (goal : Pos) (blocked : List Pos)
    (tiles : Tiles) : Nat → AStarState → Option (List Pos)
  | 0, _ => none
  | fuel + 1, st =>
    match popMin st.openList with
    | none => none
    | some ((_, _, current), rest) =>
      if current = goal then
        -- The reconstruction fuel `g(current) + 1` dominates the length
        -- of the parent chain: g strictly decreases along it.
        some (reconstruct st.cameFrom
          ((List.lookup current st.gScore).getD 0 + 1) current).reverse
      else
        match List.lookup current st.gScore with
        | none => none  -- `g_score[current]` KeyError; unreachable, every open entry has a score
        | some gCur =>
          astarLoop graph goal blocked tiles fuel
            ((adjacency graph current).foldl
              (relaxNeighbor goal blocked tiles current gCur)
              { st with openList := rest })

/-- Fuel for the main loop.  Every iteration pops one entry; an entry is
pushed only when it strictly decreases the pushed node's natural-number
`g_score`, every stored score is bounded by `10 * N` (an acyclic
`came_from` chain of at most `N` edges of cost at most 10, where `N`
bounds the number of scoreable nodes), so at most `N * (10 * N + 1) + 1`
entries are ever on the queue. -/
def astarFuel (graph : Graph) : Nat :=
  (1 + (graph.map (fun kv => kv.2.length)).sum) *
      (10 * (1 + (graph.map (fun kv => kv.2.length)).sum) + 1) + 2

/-- `pathfinding.astar`: `None` when start or goal is not a key of the
graph, otherwise the `while` loop from the initial state. -/
def astar (graph : Graph) (start goal : Pos) (blocked : List Pos)
    (tiles : Tiles) : Option (List Pos) :=
  if (List.lookup start graph).isSome ∧ (List.lookup goal graph).isSome then
    astarLoop graph goal blocked tiles (astarFuel graph)
      { openList := [(manhattan start goal, 0, start)]
        cameFrom := []
        gScore := [(start, 0)]
        counter := 0 }
  else none

/-! ## Claims C6 and C10: A* correctness

The proofs rest on an invariant of `came_from`/`g_score`: every
`came_from` link is a graph edge into a non-blocked-or-goal node, the
`g_score` strictly decreases along links, `start` keeps score 0 and is
the only scored node without a parent.  The properties of a returned
path do not depend on pop order, so nothing about heap minimality is
needed. -/

/-- `q` is a directed edge target of `p` in the graph. -/
def edgeOf (graph : Graph) (p q : Pos) : Prop := q ∈ adjacency graph p

instance (graph : Graph) (p q : Pos) : Decidable (edgeOf graph p q) := by
  unfold edgeOf
  infer_instance

/-- Invariant of the `came_from` and `g_score` dictionaries. -/
structure AStarInv (graph : Graph) (blocked : List Pos) (start goal : Pos)
    (cf : List (Pos × Pos)) (gs : List (Pos × Nat)) : Prop where
  start_g : List.lookup start gs = some 0
  cf_edge : ∀ n p, List.lookup n cf = some p → edgeOf graph p n
  cf_blocked : ∀ n p, List.lookup n cf = some p → n ∉ blocked ∨ n = goal
  cf_g : ∀ n p, List.lookup n cf = some p →
    ∃ gn gp, List.lookup n gs = some gn ∧ List.lookup p gs = some gp ∧ gp < gn
  gs_cf : ∀ n g, List.lookup n gs = some g → n ≠ start →
    (List.lookup n cf).isSome

/-- Every queued node has a `g_score` (so `g_score[current]` never
raises). -/
def OpenInv (gs : List (Pos × Nat)) (l : List AStarEntry) : Prop :=
  ∀ e ∈ l, (List.lookup e.2.2 gs).isSome

/-- The diamond graph used as the C6 witness: two routes from the
bottom-left corner to `(1, 1)`, one of them blocked. -/
def c6Graph : Graph :=
  [(((0 : Int), (0 : Int)), [((1 : Int), (0 : Int)), ((0 : Int), (1 : Int))]),
   (((1 : Int), (0 : Int)), [((1 : Int), (1 : Int))]),
   (((0 : Int), (1 : Int)), [((1 : Int), (1 : Int))]),
   (((1 : Int), (1 : Int)), [])]

/-- An order of picks `[1, 2]` with both stations completed, used as
the C2 witness input. -/
def c2Order : Order :=
  { order_id := 1
    picks := [1, 2]
    stations_to_visit := [1, 2]
    completed_stations := [2, 1] }

/-! ## Entities: `enums.py`, `models.Cart`, `models.Job`, `agv.AGV` -/

/-- `enums.AGVState`. -/
inductive AGVState
  | idle
  | moving
  | returning_to_spawn
  | moving_to_pickup
  | picking_up
  | moving_to_dropoff
  | dropping_off
deriving DecidableEq, Repr

/-- `enums.CartState`. -/
inductive CartState
  | spawned
  | in_transit
  | idle
  | to_box_depot
  | at_box_depot
  | in_transit_to_pick
  | picking
  | in_transit_to_packoff
  | at_packoff
  | waiting_for_station
  | completed
deriving DecidableEq, Repr

/-- `enums.JobType`. -/
inductive JobType
  | pickup_to_box_depot
  | move_to_pick
  | move_to_packoff
  | return_to_box_depot
  | move_to_buffer
deriving DecidableEq, Repr

/-- `models.Cart`; `carried_by` holds the carrying AGV's id. -/
structure Cart where
  cart_id : Nat
  pos : Pos
  state : CartState
  carried_by : Option Nat
  order : Option Order
  process_timer : Rat
deriving DecidableEq, Repr

/-- `agv.AGV`; `carrying_cart` holds a cart id and `current_job` a job
id. -/
structure AGV where
  agv_id : Nat
  state : AGVState
  pos : Pos
  target : Option Pos
  path : List Pos
  path_index : Nat
  path_progress : Rat
  carrying_cart : Option Nat
  action_timer : Rat
  current_job : Option Nat
  blocked_timer : Rat
  last_reroute : Rat
  is_blocked : Bool
  just_rerouted : Bool
deriving DecidableEq, Repr

/-- `models.Job`; `cart` holds the cart's id and `assigned_agv` the
AGV's id. -/
structure Job where
  job_id : Nat
  job_type : JobType
  cart : Nat
  target_pos : Pos
  station_id : Option String
  assigned_agv : Option Nat
deriving DecidableEq, Repr

/-! Timing constants of `constants.py`. -/

def AGV_SPEED : Rat := 1

def PICKUP_TIME : Rat := 5

def DROPOFF_TIME : Rat := 5

def BOX_DEPOT_TIME : Rat := 45

def PICK_TIME_PER_ITEM : Rat := 90

def PACKOFF_TIME : Rat := 60

def BLOCK_TIMEOUT : Rat := 3

def REROUTE_COOLDOWN : Rat := 2

def JOB_CANCEL_TIMEOUT : Rat := 30

def MAX_CONCURRENT_DISPATCHES : Nat := 12

/-- `Cart.update`: count down `process_timer` at processing stations,
clamping at zero. -/
def Cart.update (c : Cart) (dt : Rat) : Cart :=
  if c.state = CartState.at_box_depot ∨ c.state = CartState.picking ∨
      c.state = CartState.at_packoff then
    if c.process_timer > 0 then
      if c.process_timer - dt < 0 then { c with process_timer := 0 }
      else { c with process_timer := c.process_timer - dt }
    else c
  else c

/-! ## `AGV` planning helpers

Each helper runs A* and, only on success, resets path, index, progress
and state; the Python methods return a `bool` and mutate `self`, here
they return `some` of the updated AGV or `none`. -/

/-- `AGV.set_destination`. -/
def AGV.set_destination (a : AGV) (goal : Pos) (graph : Graph)
    (tiles : Tiles) (blocked : List Pos) : Option AGV :=
  match astar graph a.pos goal blocked tiles with
  | none => none
  | some route =>
    some { a with
      path := route, path_index := 0, path_progress := 0,
      target := some goal, state := AGVState.moving }

/-- `AGV.pickup_cart`: routes to the cart's position and records the
cart as `carrying_cart` (a target hint, the cart itself is untouched). -/
def AGV.pickup_cart (a : AGV) (c : Cart) (graph : Graph) (tiles : Tiles)
    (blocked : List Pos) : Option AGV :=
  match astar graph a.pos c.pos blocked tiles with
  | none => none
  | some route =>
    some { a with
      path := route, path_index := 0, path_progress := 0,
      target := some c.pos, carrying_cart := some c.cart_id,
      state := AGVState.moving_to_pickup }

/-- `AGV.start_dropoff`. -/
def AGV.start_dropoff (a : AGV) (goal : Pos) (graph : Graph)
    (tiles : Tiles) (blocked : List Pos) : Option AGV :=
  match astar graph a.pos goal blocked tiles with
  | none => none
  | some route =>
    some { a with
      path := route, path_index := 0, path_progress := 0,
      target := some goal, state := AGVState.moving_to_dropoff }

/-- Positions of all other AGVs together with each one's next path
tile, the blocked set built by `AGV.reroute` and by the in-tick reroute
inside `AGV.update` (a Python `set`; only membership and emptiness are
ever used, so a list with duplicates is equivalent). -/
def otherAgvBlocked (agvs : List AGV) (selfId : Nat) : List Pos :=
  agvs.foldl
    (fun acc o =>
      if o.agv_id ≠ selfId then
        acc ++ [o.pos] ++
          (if o.path ≠ [] ∧ o.path_index + 1 < o.path.length then
            [o.path.getD (o.path_index + 1) o.pos]
          else [])
      else acc)
    []

/-- `AGV.reroute`: re-plan towards `target` (or the current path's end)
avoiding other AGVs and their next tiles; reject a new path whose first
step equals the currently blocked next tile. -/
def AGV.reroute (a : AGV) (graph : Graph) (agvs : List AGV)
    (tiles : Tiles) : Option AGV :=
  match (match a.target with
    | some t => some t
    | none => if a.path ≠ [] then some (a.path.getLastD a.pos) else none) with
  | none => none
  | some goal =>
    match astar graph a.pos goal (otherAgvBlocked agvs a.agv_id) tiles with
    | none => none
    | some route =>
      let oldNext : Option Pos :=
        if a.path ≠ [] ∧ a.path_index + 1 < a.path.length then
          some (a.path.getD (a.path_index + 1) a.pos)
        else none
      let newNext : Option Pos :=
        if route.length > 1 then some (route.getD 1 a.pos) else none
      if oldNext ≠ none ∧ newNext ≠ none ∧ oldNext = newNext then none
      else
        some { a with
          path := route, path_index := 0, path_progress := 0,
          blocked_timer := 0, is_blocked := false }

/-! ## `AGV.update` -/

/-- The second guard of case (b) of the occupancy test:
`self.carrying_cart and self.carrying_cart.carried_by is self`. -/
def actuallyCarrying (a : AGV) (carts : List Cart) : Bool :=
  -- the `carried_by` field is read on the referenced cart object,
  -- resolved by id in the live cart list
  (a.carrying_cart.map (fun cid =>
    ((carts.find? (fun c => decide (c.cart_id = cid))).map
      (fun c => decide (c.carried_by = some a.agv_id))).getD false)).getD false

/-- The L1 occupancy test of `AGV.update`: some other AGV sits on
`next_tile`, or this AGV is actually carrying its cart and a stationary
cart sits on `next_tile`.  The `if agvs:`/`and carts` truthiness guards
of the source collapse into `List.any`, which is false on `[]`. -/
def occupiedCheck (a : AGV) (agvs : List AGV) (carts : List Cart)
    (next_tile : Pos) : Bool :=
  agvs.any (fun o =>
    decide (o.agv_id ≠ a.agv_id) && decide (o.pos = next_tile)) ||
    (actuallyCarrying a carts &&
      carts.any (fun c =>
        decide (c.carried_by = none) && decide (c.pos = next_tile)))

/-- The blocked exit of the movement loop: halt just short of the tile
boundary and accumulate block time (`return` in the source, recorded by
the Bool flag of `moveLoop`). -/
def blockedStop (dt : Rat) (a : AGV) : AGV :=
  { a with
    path_progress := mkRat 99 100, is_blocked := true,
    blocked_timer := a.blocked_timer + dt }

/-- Fuel dominating the `while path_progress >= 1.0 and ...` loop:
each advance lowers `path_progress` by one, a blocked check returns,
and an accepted reroute caps the progress at `0.99`, ending the loop. -/
def moveFuel (progress : Rat) : Nat := (Int.ceil (max progress 0)).toNat + 2

/-- The `while path_progress >= 1.0 and path_index < len(path) - 1`
loop of `AGV.update`.  The Bool result records whether the loop body
executed the blocked `return`, which skips the arrival code. -/
def moveLoop (dt : Rat) (graph : Graph) (tiles : Tiles) (agvs : List AGV) :
    Nat → AGV → List Cart → AGV × List Cart × Bool
  | 0, a, carts => (a, carts, false)
  | fuel + 1, a, carts =>
    if a.path_progress ≥ 1 ∧ a.path_index + 1 < a.path.length then
      let next_tile := a.path.getD (a.path_index + 1) a.pos
      if occupiedCheck a agvs carts next_tile then
        if graph ≠ [] ∧ a.just_rerouted = false then
          match astar graph a.pos (a.target.getD (a.path.getLastD a.pos))
              (otherAgvBlocked agvs a.agv_id) tiles with
          | some alt =>
            if alt.length > 1 ∧ alt.getD 1 a.pos ≠ next_tile then
              -- accept the reroute and `continue`
              moveLoop dt graph tiles agvs fuel
                { a with
                  path := alt, path_index := 0,
                  path_progress := min a.path_progress (mkRat 99 100),
                  just_rerouted := true, is_blocked := false,
                  blocked_timer := 0 } carts
            else (blockedStop dt a, carts, true)
          | none => (blockedStop dt a, carts, true)
        else (blockedStop dt a, carts, true)
      else
        -- clear to advance one tile
        let a2 := { a with
          just_rerouted := false, is_blocked := false,
          blocked_timer := 0, path_progress := a.path_progress - 1,
          path_index := a.path_index + 1,
          pos := a.path.getD (a.path_index + 1) a.pos }
        let carts2 :=
          match a2.carrying_cart with
          | some cid =>
            carts.map (fun c =>
              if c.cart_id = cid ∧ c.state = CartState.in_transit then
                { c with pos := a2.pos }
              else c)
          | none => carts
        moveLoop dt graph tiles agvs fuel a2 carts2
    else (a, carts, false)

/-- `AGV.update`: action timers, then path advancement with the
collision check, then the arrival transition. -/
def AGV.update (a : AGV) (dt : Rat) (agvs : List AGV) (carts : List Cart)
    (graph : Graph) (tiles : Tiles) : AGV × List Cart :=
  if a.state = AGVState.picking_up then
    if a.action_timer - dt ≤ 0 then
      let carts2 :=
        match a.carrying_cart with
        | some cid =>
          carts.map (fun c =>
            if c.cart_id = cid then
              { c with
                state := CartState.in_transit,
                carried_by := some a.agv_id, pos := a.pos }
            else c)
        | none => carts
      ({ a with action_timer := 0, state := AGVState.idle }, carts2)
    else ({ a with action_timer := a.action_timer - dt }, carts)
  else if a.state = AGVState.dropping_off then
    if a.action_timer - dt ≤ 0 then
      match a.carrying_cart with
      | some cid =>
        ({ a with
           action_timer := 0, state := AGVState.idle,
           carrying_cart := none },
         carts.map (fun c =>
           if c.cart_id = cid then
             { c with
               state := CartState.idle, carried_by := none,
               pos := a.pos }
           else c))
      | none => ({ a with action_timer := 0, state := AGVState.idle }, carts)
    else ({ a with action_timer := a.action_timer - dt }, carts)
  else if a.state = AGVState.idle ∨ a.path = [] then (a, carts)
  else
    let a1 := { a with
      just_rerouted := false,
      path_progress := a.path_progress + AGV_SPEED * dt }
    match moveLoop dt graph tiles agvs (moveFuel a1.path_progress) a1 carts with
    | (a2, carts2, true) => (a2, carts2)
    | (a2, carts2, false) =>
      if a2.path.length ≤ a2.path_index + 1 then
        let a3 := { a2 with
          pos := a2.path.getLastD a2.pos,
          path_progress := 0, target := none, path := [], path_index := 0,
          is_blocked := false, blocked_timer := 0, just_rerouted := false }
        let carts3 :=
          match a3.carrying_cart with
          | some cid =>
            carts2.map (fun c =>
              if c.cart_id = cid ∧ c.state = CartState.in_transit then
                { c with pos := a3.pos }
              else c)
          | none => carts2
        if a3.state = AGVState.moving_to_pickup then
          ({ a3 with
             state := AGVState.picking_up,
             action_timer := PICKUP_TIME }, carts3)
        else if a3.state = AGVState.moving_to_dropoff then
          ({ a3 with
             state := AGVState.dropping_off,
             action_timer := DROPOFF_TIME }, carts3)
        else ({ a3 with state := AGVState.idle }, carts3)
      else (a2, carts2)

/-! ## Dispatcher (`dispatcher.py`) and the simulation world

The world value collects the entity lists and the dispatcher's own
state.  Python mutates shared objects; here every step maps over the
entity lists by id — ids are unique in the simulator (global
counters), which makes the two views agree. -/

/-- `station_id.startswith("S")`, written on the character list so
that kernel evaluation reduces; equivalent for every string. -/
def startsWithS (s : String) : Bool := s.data.head? = some 'S'

/-- `models.STATIONS`, in the dict's insertion order. -/
def STATIONS : List (String × Nat) :=
  [("S1", 5), ("S2", 4), ("S3", 4), ("S4", 4), ("S5", 3),
   ("S6", 4), ("S7", 4), ("S8", 4), ("S9", 4),
   ("Box_Depot", 8), ("Pack_off", 4)]

/-- `Dispatcher._station_tiles[(station_id, tile_type)]`: built in
`__init__` from the tiles with a truthy `station_id`, in tile-dict
order. -/
def stationTiles (tiles : Tiles) (sid : String) (tt : TileType) : List Pos :=
  (tiles.filter (fun kv =>
    decide (kv.2.station_id = some sid) && decide (kv.2.tile_type = tt))).map
    (fun kv => kv.1)

/-- The simulation state: entities, job queues, and counters.  The
`next_job_id`/`next_order_id` fields model the class-level `_next_id`
counters. -/
structure World where
  agvs : List AGV
  carts : List Cart
  pending_jobs : List Job
  active_jobs : List Job
  completed_orders : Nat
  cart_start_times : List (Nat × Rat)
  cycle_times : List Rat
  order_completion_times : List Rat
  station_fill_cache : Option (List (String × (Nat × Nat × Rat)))
  sim_elapsed : Rat
  next_job_id : Nat
  next_order_id : Nat
deriving DecidableEq, Repr

def findAgv (w : World) (id : Nat) : Option AGV :=
  w.agvs.find? (fun a => decide (a.agv_id = id))

def findCart (w : World) (id : Nat) : Option Cart :=
  w.carts.find? (fun c => decide (c.cart_id = id))

def updAgv (w : World) (id : Nat) (f : AGV → AGV) : World :=
  { w with agvs := w.agvs.map (fun a => if a.agv_id = id then f a else a) }

def setAgv (w : World) (id : Nat) (a2 : AGV) : World :=
  updAgv w id (fun _ => a2)

def updCart (w : World) (id : Nat) (f : Cart → Cart) : World :=
  { w with carts := w.carts.map (fun c => if c.cart_id = id then f c else c) }

/-- Mutation of a job object, applied wherever the object is
referenced from the queues. -/
def updJob (w : World) (id : Nat) (f : Job → Job) : World :=
  { w with
    pending_jobs := w.pending_jobs.map (fun j => if j.job_id = id then f j else j)
    active_jobs := w.active_jobs.map (fun j => if j.job_id = id then f j else j) }

/-- `Dispatcher._reserved_tiles`: tiles of stationary carts plus the
target tiles of all pending and active jobs (a Python `set`; only
membership is used). -/
def reservedTiles (w : World) : List Pos :=
  (w.carts.filter (fun c => decide (c.carried_by = none))).map (fun c => c.pos) ++
    w.pending_jobs.map (fun j => j.target_pos) ++
    w.active_jobs.map (fun j => j.target_pos)

/-- `Dispatcher.get_station_fill`. -/
def getStationFill (tiles : Tiles) (w : World) :
    List (String × (Nat × Nat × Rat)) :=
  let reserved := reservedTiles w
  STATIONS.map (fun sc =>
    let tt := if startsWithS sc.1 then TileType.pick_station else TileType.parking
    let positions := stationTiles tiles sc.1 tt
    let current := (positions.filter (fun p => reserved.contains p)).length
    (sc.1, (current, sc.2, if sc.2 > 0 then mkRat current sc.2 else 0)))

/-- One `(priority, dist, s)` ranking triple of `_pick_best_station`;
the distance is `⊤` (`float("inf")` in the source) for a station with
no tiles. -/
abbrev Cand := Nat × (WithTop Nat) × Nat

/-- Python tuple comparison on ranking triples. -/
def candLe (a b : Cand) : Prop :=
  a.1 < b.1 ∨ (a.1 = b.1 ∧ (a.2.1 < b.2.1 ∨ (a.2.1 = b.2.1 ∧ a.2.2 ≤ b.2.2)))

instance : DecidableRel candLe := fun a b => by
  unfold candLe
  infer_instance

instance : IsTotal Cand candLe where
  total a b := by
    unfold candLe
    rcases lt_trichotomy a.1 b.1 with h | h | h
    · exact Or.inl (Or.inl h)
    · rcases lt_trichotomy a.2.1 b.2.1 with h2 | h2 | h2
      · exact Or.inl (Or.inr ⟨h, Or.inl h2⟩)
      · rcases Nat.le_total a.2.2 b.2.2 with h3 | h3
        · exact Or.inl (Or.inr ⟨h, Or.inr ⟨h2, h3⟩⟩)
        · exact Or.inr (Or.inr ⟨h.symm, Or.inr ⟨h2.symm, h3⟩⟩)
      · exact Or.inr (Or.inr ⟨h.symm, Or.inl h2⟩)
    · exact Or.inr (Or.inl h)

instance : IsTrans Cand candLe where
  trans a b c hab hbc := by
    unfold candLe at *
    rcases hab with h1 | ⟨e1, h1⟩
    · rcases hbc with h2 | ⟨e2, _⟩
      · exact Or.inl (lt_trans h1 h2)
      · exact Or.inl (e2 ▸ h1)
    · rcases hbc with h2 | ⟨e2, h2⟩
      · exact Or.inl (e1 ▸ h2)
      · refine Or.inr ⟨e1.trans e2, ?_⟩
        rcases h1 with h1 | ⟨f1, h1⟩
        · rcases h2 with h2 | ⟨f2, _⟩
          · exact Or.inl (lt_trans h1 h2)
          · exact Or.inl (f2 ▸ h1)
        · rcases h2 with h2 | ⟨f2, h2⟩
          · exact Or.inl (f1 ▸ h2)
          · exact Or.inr ⟨f1.trans f2, le_trans h1 h2⟩

/-- `fill.get(f"S{s}", (0, 0, 1.0))`. -/
def stationFillFor (fill : List (String × (Nat × Nat × Rat))) (s : Nat) :
    Nat × Nat × Rat :=
  (List.lookup ("S" ++ toString s) fill).getD (0, 0, 1)

/-- The priority tier: 1 when the fill rate is at most 0.5, 2 when at
most 0.75, 3 otherwise. -/
def stationTier (fill : List (String × (Nat × Nat × Rat))) (s : Nat) : Nat :=
  if (stationFillFor fill s).2.2 ≤ mkRat 1 2 then 1
  else if (stationFillFor fill s).2.2 ≤ mkRat 3 4 then 2
  else 3

/-- Manhattan distance from the cart to the station's first tile,
`float("inf")` (here `⊤`) when the station has no tiles. -/
def stationDist (tiles : Tiles) (cart_pos : Pos) (s : Nat) : WithTop Nat :=
  match (stationTiles tiles ("S" ++ toString s) TileType.pick_station).head? with
  | some p => ((manhattan cart_pos p : Nat) : WithTop Nat)
  | none => ⊤

/-- The candidate triple `_pick_best_station` builds for station `s`,
or `none` when the station is filtered out as full. -/
def stationCand (tiles : Tiles) (fill : List (String × (Nat × Nat × Rat)))
    (cart_pos : Pos) (s : Nat) : Option Cand :=
  if (stationFillFor fill s).1 ≥ (stationFillFor fill s).2.1 then none
  else some (stationTier fill s, stationDist tiles cart_pos s, s)

/-- `Dispatcher._pick_best_station`: rank the candidates by
`(priority, dist, s)` ascending (`candidates.sort()`) and return the
station number of the first, `none` when every candidate is full. -/
def pickBestStation (tiles : Tiles) (w : World) (remaining : List Nat)
    (cart_pos : Pos) : Option Nat :=
  let fill := getStationFill tiles w
  let candidates := remaining.filterMap (stationCand tiles fill cart_pos)
  ((List.insertionSort candLe candidates).head?).map (fun c => c.2.2)

/-- `Dispatcher._find_tile`; every embedded call site passes the cart
list, so the `carts is None` default branch is omitted. -/
def findTile (tiles : Tiles) (w : World) (sid : String) (tt : TileType) :
    Option Pos :=
  (stationTiles tiles sid tt).find?
    (fun p => !((reservedTiles w).contains p))

/-- `Dispatcher._find_buffer_spot`: nearest unreserved unaffiliated
parking tile; strict `<` keeps the earliest tile on distance ties. -/
def findBufferSpot (tiles : Tiles) (w : World) (near : Pos) : Option Pos :=
  (tiles.foldl
    (fun best kv =>
      if kv.2.tile_type = TileType.parking ∧ kv.2.station_id = none ∧
          ¬ (reservedTiles w).contains kv.1 = true then
        match best with
        | none => some (kv.1, manhattan kv.1 near)
        | some b =>
          if manhattan kv.1 near < b.2 then some (kv.1, manhattan kv.1 near)
          else best
      else best)
    none).map (fun b => b.1)

/-- `Dispatcher._has_job`. -/
def hasJob (w : World) (cid : Nat) : Bool :=
  w.pending_jobs.any (fun j => decide (j.cart = cid)) ||
    w.active_jobs.any (fun j => decide (j.cart = cid))

/-- `Job(...)` plus `pending_jobs.append(job)`: a fresh job from the
global id counter, queued as pending. -/
def appendJob (w : World) (jt : JobType) (cid : Nat) (target : Pos)
    (sid : Option String) : World :=
  { w with
    pending_jobs := w.pending_jobs ++
      [{ job_id := w.next_job_id, job_type := jt, cart := cid,
         target_pos := target, station_id := sid, assigned_agv := none }]
    next_job_id := w.next_job_id + 1 }

/-- `dict` assignment `cart_start_times[cid] = v`. -/
def assocSet (l : List (Nat × Rat)) (k : Nat) (v : Rat) : List (Nat × Rat) :=
  (k, v) :: l.eraseP (fun kv => decide (kv.1 = k))

/-- One iteration of the `for cart in carts` loop of
`Dispatcher._create_jobs`; `genOrder` supplies the RNG-drawn `picks`
list of the `Order()` constructor. -/
def createJobForCart (tiles : Tiles) (genOrder : Nat → List Nat)
    (w : World) (cid : Nat) : World :=
  match findCart w cid with
  | none => w  -- unreachable: the iterated ids come from the live cart list
  | some cart =>
    if hasJob w cid then w
    else if cart.state = CartState.spawned ∧ cart.carried_by = none then
      match findTile tiles w "Box_Depot" TileType.parking with
      | some target =>
        let w1 := appendJob w JobType.pickup_to_box_depot cid target none
        { w1 with cart_start_times := assocSet w1.cart_start_times cid w1.sim_elapsed }
      | none => w
    else if cart.state = CartState.at_box_depot ∧ cart.process_timer ≤ 0 then
      -- generate an order if absent
      let ow : Order × World :=
        match cart.order with
        | some o => (o, w)
        | none =>
          let o := Order.make w.next_order_id (genOrder w.next_order_id)
          (o, { updCart w cid (fun c => { c with order := some o }) with
                next_order_id := w.next_order_id + 1 })
      let order := ow.1
      let w1 := ow.2
      let remaining := order.stations_to_visit.filter
        (fun s => !(order.completed_stations.contains s))
      let ns :=
        match pickBestStation tiles w1 remaining cart.pos with
        | some n => some n
        | none => order.next_station
      match ns with
      | some n =>
        let sid := "S" ++ toString n
        match findTile tiles w1 sid TileType.pick_station with
        | some target => appendJob w1 JobType.move_to_pick cid target (some sid)
        | none => w1
      | none => w1
    else if cart.state = CartState.picking ∧ cart.process_timer ≤ 0 then
      match cart.order with
      | none => w
      | some order =>
        let remaining := order.stations_to_visit.filter
          (fun s => !(order.completed_stations.contains s))
        let ns :=
          match pickBestStation tiles w remaining cart.pos with
          | some n => some n
          | none => order.next_station
        match ns with
        | some n =>
          let sid := "S" ++ toString n
          match findTile tiles w sid TileType.pick_station with
          | some target => appendJob w JobType.move_to_pick cid target (some sid)
          | none =>
            -- station full: buffer the cart to free this tile
            match findBufferSpot tiles w cart.pos with
            | some buffer => appendJob w JobType.move_to_buffer cid buffer none
            | none => w
        | none =>
          if order.all_picked then
            match findTile tiles w "Pack_off" TileType.parking with
            | some target => appendJob w JobType.move_to_packoff cid target none
            | none =>
              -- Pack-off full: buffer the cart to free this tile
              match findBufferSpot tiles w cart.pos with
              | some buffer => appendJob w JobType.move_to_buffer cid buffer none
              | none => w
          else w
    else if cart.state = CartState.at_packoff ∧ cart.process_timer ≤ 0 then
      match findTile tiles w "Box_Depot" TileType.parking with
      | some target => appendJob w JobType.return_to_box_depot cid target none
      | none => w
    else if cart.state = CartState.waiting_for_station ∧ cart.carried_by = none then
      match cart.order with
      | none => w
      | some order =>
        let remaining := order.stations_to_visit.filter
          (fun s => !(order.completed_stations.contains s))
        if remaining ≠ [] then
          let ns :=
            match pickBestStation tiles w remaining cart.pos with
            | some n => some n
            | none => order.next_station
          match ns with
          | some n =>
            let sid := "S" ++ toString n
            match findTile tiles w sid TileType.pick_station with
            | some target => appendJob w JobType.move_to_pick cid target (some sid)
            | none => w
          | none => w
        else if order.all_picked then
          match findTile tiles w "Pack_off" TileType.parking with
          | some target => appendJob w JobType.move_to_packoff cid target none
          | none => w
        else w
    else if cart.state = CartState.completed ∧ cart.carried_by = none then
      match findTile tiles w "Box_Depot" TileType.parking with
      | some target => appendJob w JobType.return_to_box_depot cid target none
      | none => w
    else w

/-- `Dispatcher._create_jobs`. -/
def createJobs (tiles : Tiles) (genOrder : Nat → List Nat) (w : World) :
    World :=
  (w.carts.map (fun c => c.cart_id)).foldl (createJobForCart tiles genOrder) w

/-- `{a.pos for a in agvs if a is not X}`. -/
def otherPositions (agvs : List AGV) (exceptId : Nat) : List Pos :=
  (agvs.filter (fun a => decide (a.agv_id ≠ exceptId))).map (fun a => a.pos)

/-- `min(free_agvs, key=manhattan distance to target)` over ids; the
first minimum wins ties, as Python's `min` does. -/
def argminAgv (w : World) (free : List Nat) (target : Pos) : Option Nat :=
  (free.foldl
    (fun best i =>
      match findAgv w i with
      | none => best
      | some a =>
        match best with
        | none => some (i, manhattan a.pos target)
        | some b =>
          if manhattan a.pos target < b.2 then some (i, manhattan a.pos target)
          else best)
    none).map (fun b => b.1)

/-- The `for job in self.pending_jobs` loop of
`Dispatcher._assign_jobs`: assign each pending job to the nearest free
AGV, collecting the assigned job ids for the deferred removal from
`pending_jobs`. -/
def assignLoop (graph : Graph) (tiles : Tiles) :
    List Job → World → List Nat → List Nat → World × List Nat
  | [], w, _, assigned => (w, assigned)
  | job :: rest, w, free, assigned =>
    if free = [] then (w, assigned)  -- `break`
    else
      match findCart w job.cart with
      | none => assignLoop graph tiles rest w free assigned  -- unreachable
      | some cart =>
        match argminAgv w free cart.pos with
        | none => assignLoop graph tiles rest w free assigned
        | some bestId =>
          match findAgv w bestId with
          | none => assignLoop graph tiles rest w free assigned
          | some best =>
            match best.pickup_cart cart graph tiles
                (otherPositions w.agvs bestId) with
            | some a2 =>
              let w1 := setAgv w bestId { a2 with current_job := some job.job_id }
              let w2 := { w1 with
                active_jobs := w1.active_jobs ++
                  [{ job with assigned_agv := some bestId }] }
              assignLoop graph tiles rest w2 (free.erase bestId)
                (assigned ++ [job.job_id])
            | none => assignLoop graph tiles rest w free assigned

/-- `Dispatcher._assign_jobs`. -/
def assignJobs (graph : Graph) (tiles : Tiles) (w : World) : World :=
  let slots := MAX_CONCURRENT_DISPATCHES - w.active_jobs.length
  if slots = 0 then w  -- `slots <= 0` on ints; Nat subtraction saturates
  else
    let free := ((w.agvs.filter (fun a =>
      decide (a.state = AGVState.idle) && decide (a.current_job = none) &&
        decide (a.carrying_cart = none))).take slots).map (fun a => a.agv_id)
    let res := assignLoop graph tiles w.pending_jobs w free []
    { res.1 with
      pending_jobs := res.1.pending_jobs.filter
        (fun j => !((res.2).contains j.job_id)) }

/-- `Dispatcher._set_transit_state`. -/
def setTransitState (w : World) (job : Job) : World :=
  updCart w job.cart (fun c =>
    { c with
      state :=
        match job.job_type with
        | JobType.pickup_to_box_depot => CartState.to_box_depot
        | JobType.move_to_pick => CartState.in_transit_to_pick
        | JobType.move_to_packoff => CartState.in_transit_to_packoff
        | JobType.return_to_box_depot => CartState.to_box_depot
        | JobType.move_to_buffer => CartState.in_transit })

/-- `Dispatcher._complete_job`. -/
def completeJob (w : World) (job : Job) : World :=
  let w1 :=
    match job.job_type with
    | JobType.pickup_to_box_depot =>
      updCart w job.cart (fun c =>
        { c with
          state := CartState.at_box_depot,
          process_timer := BOX_DEPOT_TIME })
    | JobType.move_to_pick =>
      -- `int(job.station_id[1:])`; every move_to_pick job carries its sid
      let station_num := (((job.station_id.getD "").drop 1).toNat?).getD 0
      match findCart w job.cart with
      | none => w
      | some cart =>
        let items :=
          match cart.order with
          | some o => o.items_at_station station_num
          | none => 1
        updCart w job.cart (fun c =>
          { c with
            state := CartState.picking,
            process_timer := PICK_TIME_PER_ITEM * (items : Rat),
            order := c.order.map (fun o => o.complete_station station_num) })
    | JobType.move_to_packoff =>
      updCart w job.cart (fun c =>
        { c with state := CartState.at_packoff, process_timer := PACKOFF_TIME })
    | JobType.move_to_buffer =>
      updCart w job.cart (fun c => { c with state := CartState.waiting_for_station })
    | JobType.return_to_box_depot =>
      let wa := updCart w job.cart (fun c =>
        { c with
          state := CartState.at_box_depot,
          process_timer := BOX_DEPOT_TIME, order := none })
      let wb := { wa with completed_orders := wa.completed_orders + 1 }
      match List.lookup job.cart wb.cart_start_times with
      | some t =>
        { wb with
          cart_start_times := wb.cart_start_times.eraseP
            (fun kv => decide (kv.1 = job.cart))
          cycle_times := wb.cycle_times ++ [wb.sim_elapsed - t]
          order_completion_times := wb.order_completion_times ++ [wb.sim_elapsed] }
      | none => wb
  let w2 :=
    match job.assigned_agv with
    | some aid => updAgv w1 aid (fun a => { a with current_job := none })
    | none => w1
  { w2 with
    active_jobs := w2.active_jobs.eraseP (fun j => decide (j.job_id = job.job_id)) }

/-- One iteration of the `for job in list(self.active_jobs)` loop of
`Dispatcher._progress_jobs`. -/
def progressOne (graph : Graph) (tiles : Tiles) (w : World) (job : Job) :
    World :=
  match job.assigned_agv with
  | none => w
  | some aid =>
    match findAgv w aid with
    | none => w  -- unreachable
    | some agv =>
      if agv.state = AGVState.idle ∧ agv.carrying_cart = some job.cart then
        -- phase 1 complete: set the cart transit state and start the dropoff
        let w1 := setTransitState w job
        match agv.start_dropoff job.target_pos graph tiles
            (otherPositions w1.agvs aid) with
        | some a2 => setAgv w1 aid a2
        | none => w1
      else if agv.state = AGVState.idle ∧ agv.carrying_cart = none ∧
          ((findCart w job.cart).map (fun c => c.carried_by)).getD none = none then
        completeJob w job
      else w

/-- `Dispatcher._progress_jobs`: iterates over a snapshot of
`active_jobs`. -/
def progressJobs (graph : Graph) (tiles : Tiles) (w : World) : World :=
  w.active_jobs.foldl (progressOne graph tiles) w

/-- One iteration of the `for agv in agvs` loop of
`Dispatcher._cancel_stuck_jobs`. -/
def cancelStuckOne (graph : Graph) (tiles : Tiles) (w : World) (aid : Nat) :
    World :=
  match findAgv w aid with
  | none => w
  | some agv =>
    if ¬ agv.is_blocked = true ∨ agv.blocked_timer < JOB_CANCEL_TIMEOUT ∨
        agv.current_job = none then w
    else
      match agv.current_job with
      | none => w
      | some jid =>
        -- `job = agv.current_job`, the referenced job object
        match (w.active_jobs ++ w.pending_jobs).find?
            (fun j => decide (j.job_id = jid)) with
        | none => w  -- unreachable: a held job is always queued
        | some job =>
          if agv.carrying_cart = none ∧ agv.state = AGVState.moving_to_pickup then
            -- Case 1: stuck heading to pickup — cancel and re-queue
            let w1 := updAgv w aid (fun a =>
              { a with
                current_job := none, state := AGVState.idle,
                path := [], path_index := 0, path_progress := 0,
                target := none, is_blocked := false, blocked_timer := 0 })
            { w1 with
              active_jobs := w1.active_jobs.eraseP
                (fun j => decide (j.job_id = jid))
              pending_jobs := w1.pending_jobs ++ [{ job with assigned_agv := none }] }
          else if agv.carrying_cart ≠ none ∧
              agv.state = AGVState.moving_to_dropoff then
            -- Case 2: stuck while carrying — retarget to nearest parking
            match findBufferSpot tiles w agv.pos with
            | none => w
            | some buffer =>
              match agv.start_dropoff buffer graph tiles [] with
              | none => w
              | some a2 =>
                let w1 := setAgv w aid
                  { a2 with blocked_timer := 0, is_blocked := false }
                updJob w1 jid (fun j =>
                  { j with target_pos := buffer, job_type := JobType.move_to_buffer })
          else w

/-- `Dispatcher._cancel_stuck_jobs`. -/
def cancelStuckJobs (graph : Graph) (tiles : Tiles) (w : World) : World :=
  (w.agvs.map (fun a => a.agv_id)).foldl (cancelStuckOne graph tiles) w

/-- Nearest unoccupied unaffiliated parking/spawn tile; shared by the
nudge of `_handle_blocked_agvs` and by `_park_idle_agvs`, which use the
same selection. -/
def nearestFreeParkSpawn (tiles : Tiles) (agv_positions : List Pos)
    (near : Pos) : Option Pos :=
  (tiles.foldl
    (fun best kv =>
      if (kv.2.tile_type = TileType.parking ∨
          kv.2.tile_type = TileType.agv_spawn) ∧
          kv.2.station_id = none ∧ ¬ agv_positions.contains kv.1 = true then
        match best with
        | none => some (kv.1, manhattan kv.1 near)
        | some b =>
          if manhattan kv.1 near < b.2 then some (kv.1, manhattan kv.1 near)
          else best
      else best)
    none).map (fun b => b.1)

/-- One iteration of the `for agv in agvs` loop of
`Dispatcher._handle_blocked_agvs`. -/
def handleBlockedOne (graph : Graph) (tiles : Tiles) (w : World) (aid : Nat) :
    World :=
  match findAgv w aid with
  | none => w
  | some agv =>
    if ¬ agv.is_blocked = true ∨ agv.blocked_timer < BLOCK_TIMEOUT then w
    else
      let blockerOpt :=
        if agv.path ≠ [] ∧ agv.path_index + 1 < agv.path.length then
          w.agvs.find? (fun o =>
            decide (o.agv_id ≠ agv.agv_id) &&
              decide (o.pos = agv.path.getD (agv.path_index + 1) agv.pos))
        else none
      let proceedReroute : World :=
        if agv.blocked_timer - agv.last_reroute < REROUTE_COOLDOWN then w
        else
          match agv.reroute graph w.agvs tiles with
          | some a2 => setAgv w aid { a2 with last_reroute := a2.blocked_timer }
          | none => updAgv w aid (fun a => { a with last_reroute := a.blocked_timer })
      match blockerOpt with
      | some blocker =>
        if blocker.state = AGVState.idle ∧ blocker.current_job = none ∧
            blocker.carrying_cart = none then
          -- nudge the idle blocker off the waiter's next tile
          match nearestFreeParkSpawn tiles (w.agvs.map (fun a => a.pos))
              blocker.pos with
          | some best =>
            match blocker.set_destination best graph tiles [] with
            | some b2 =>
              let w1 := setAgv w blocker.agv_id b2
              updAgv w1 aid (fun a => { a with blocked_timer := 0 })
            | none => w
          | none => w
        else if ¬ blocker.is_blocked = true ∧ blocker.state ≠ AGVState.idle ∧
            agv.blocked_timer < BLOCK_TIMEOUT * 2 then
          w  -- the blocker is moving: wait briefly
        else proceedReroute
      | none => proceedReroute

/-- `Dispatcher._handle_blocked_agvs`. -/
def handleBlockedAgvs (graph : Graph) (tiles : Tiles) (w : World) : World :=
  (w.agvs.map (fun a => a.agv_id)).foldl (handleBlockedOne graph tiles) w

/-- One iteration of the `for agv in agvs` loop of
`Dispatcher._park_idle_agvs`; `agv_positions` is the set computed once
before the loop. -/
def parkIdleOne (graph : Graph) (tiles : Tiles) (agv_positions : List Pos)
    (w : World) (aid : Nat) : World :=
  match findAgv w aid with
  | none => w
  | some agv =>
    if agv.state ≠ AGVState.idle ∨ agv.current_job ≠ none ∨
        agv.carrying_cart ≠ none then w
    else
      match List.lookup agv.pos tiles with
      | none => w
      | some tile =>
        if tile.tile_type ≠ TileType.highway then w
        else
          match nearestFreeParkSpawn tiles agv_positions agv.pos with
          | some best =>
            match agv.set_destination best graph tiles [] with
            | some a2 => setAgv w aid a2
            | none => w
          | none => w

/-- `Dispatcher._park_idle_agvs`. -/
def parkIdleAgvs (graph : Graph) (tiles : Tiles) (w : World) : World :=
  let agv_positions := w.agvs.map (fun a => a.pos)
  (w.agvs.map (fun a => a.agv_id)).foldl
    (parkIdleOne graph tiles agv_positions) w

/-- `Dispatcher.update`: the fixed per-tick phase sequence. -/
def dispatcherUpdate (graph : Graph) (tiles : Tiles)
    (genOrder : Nat → List Nat) (sim_elapsed : Rat) (w : World) : World :=
  let w0 := { w with sim_elapsed := sim_elapsed }
  let w1 := { w0 with station_fill_cache := some (getStationFill tiles w0) }
  let w2 := cancelStuckJobs graph tiles w1
  let w3 := createJobs tiles genOrder w2
  let w4 := assignJobs graph tiles w3
  let w5 := progressJobs graph tiles w4
  let w6 := handleBlockedAgvs graph tiles w5
  parkIdleAgvs graph tiles w6

/-- `Dispatcher.get_bottleneck_alerts`. -/
def getBottleneckAlerts (tiles : Tiles) (w : World) : List String :=
  let fill := w.station_fill_cache.getD (getStationFill tiles w)
  let po := (List.lookup "Pack_off" fill).getD (0, 4, 0)
  let packAlerts : List String :=
    if po.1 ≥ po.2.1 then ["Pack-off FULL"]
    else if ((w.pending_jobs ++ w.active_jobs).filter
        (fun j => decide (j.job_type = JobType.move_to_packoff))).length > 3 then
      ["Pack-off queue > 3"]
    else []
  let stationAlerts : List String :=
    (List.range' 1 9).foldl
      (fun acc i =>
        let sid := "S" ++ toString i
        let f := (List.lookup sid fill).getD (0, 0, 0)
        if f.1 ≥ f.2.1 ∧ f.2.1 > 0 then
          let waiting := ((w.pending_jobs ++ w.active_jobs).filter
            (fun j => decide (j.station_id = some sid))).length
          if waiting > 0 then
            acc ++ [sid ++ " FULL (" ++ toString waiting ++ " waiting)"]
          else acc
        else acc)
      []
  let bd := (List.lookup "Box_Depot" fill).getD (0, 8, 0)
  let spawned := (w.carts.filter
    (fun c => decide (c.state = CartState.spawned))).length
  let bdAlerts : List String :=
    if bd.1 ≥ bd.2.1 ∧ spawned > 0 then
      ["Box Depot FULL (" ++ toString spawned ++ " spawned)"]
    else []
  packAlerts ++ stationAlerts ++ bdAlerts

/-! ## The simulation tick (`headless.run_headless` loop body) -/

/-- One tick: sequential AGV updates in list order, then cart timer
updates, then the Dispatcher. -/
def tick (graph : Graph) (tiles : Tiles) (genOrder : Nat → List Nat)
    (dt : Rat) (sim_elapsed : Rat) (w : World) : World :=
  let w1 := (w.agvs.map (fun a => a.agv_id)).foldl
    (fun w aid =>
      match findAgv w aid with
      | none => w
      | some a =>
        let res := a.update dt w.agvs w.carts graph tiles
        { setAgv w aid res.1 with carts := res.2 })
    w
  let w2 := { w1 with carts := w1.carts.map (fun c => c.update dt) }
  dispatcherUpdate graph tiles genOrder sim_elapsed w2

/-- `n` ticks of the headless loop starting at sim time `se`
(`sim_elapsed` advances by `dt` after each dispatcher call). -/
def runTicks (graph : Graph) (tiles : Tiles) (genOrder : Nat → List Nat)
    (dt : Rat) : Nat → Rat → World → World
  | 0, _, w => w
  | n + 1, se, w =>
    runTicks graph tiles genOrder dt n (se + dt)
      (tick graph tiles genOrder dt se w)

/-! ## Headless pre-placement (`headless.run_headless`) -/

/-- `placeable`: graph keys whose tile is parking or pick_station.  A
graph key missing from the tile dict would raise `KeyError` in the
source; `build_graph` keys are tile keys, so the lookup succeeds. -/
def placeableTiles (graph : Graph) (tiles : Tiles) : List Pos :=
  (graph.map (fun kv => kv.1)).filter (fun p =>
    match List.lookup p tiles with
    | some t => decide (t.tile_type = TileType.parking ∨
        t.tile_type = TileType.pick_station)
    | none => false)

/-- The pre-placement of `run_headless` after `random.shuffle`: the
shuffle outcome enters as `shuffled`; raises (`Except.error`) iff the
entities outnumber the placeable tiles, otherwise assigns consecutive
slots to AGVs then carts. -/
def runHeadlessPlace (num_agvs num_carts : Nat) (shuffled : List Pos) :
    Except String (List Pos × List Pos) :=
  if num_agvs + num_carts > shuffled.length then
    Except.error "Cannot place entities: not enough PARKING/PICK_STATION tiles available in the graph."
  else
    Except.ok (shuffled.take num_agvs, (shuffled.drop num_agvs).take num_carts)

/-- Concrete AGV used by the C5 witness: on a two-tile path with full
progress. -/
def c5Agv : AGV :=
  { agv_id := 1
    state := AGVState.moving
    pos := ((0 : Int), (0 : Int))
    target := some ((1 : Int), (0 : Int))
    path := [((0 : Int), (0 : Int)), ((1 : Int), (0 : Int))]
    path_index := 0
    path_progress := 1
    carrying_cart := none
    action_timer := 0
    current_job := none
    blocked_timer := 0
    last_reroute := 0
    is_blocked := false
    just_rerouted := false }

/-- Concrete uncarried cart off the path, used by the C5 witness. -/
def c5Cart : Cart :=
  { cart_id := 7
    pos := ((5 : Int), (5 : Int))
    state := CartState.idle
    carried_by := none
    order := none
    process_timer := 0 }

/-- Tiles for the C7 witness (the spec's E6 scenario): S1 with five
pick tiles, S3 with four. -/
def c7Tiles : Tiles :=
  [(((10 : Int), (10 : Int)), { x := 10, y := 10, tile_type := TileType.pick_station, station_id := some "S1" }),
   (((11 : Int), (10 : Int)), { x := 11, y := 10, tile_type := TileType.pick_station, station_id := some "S1" }),
   (((12 : Int), (10 : Int)), { x := 12, y := 10, tile_type := TileType.pick_station, station_id := some "S1" }),
   (((13 : Int), (10 : Int)), { x := 13, y := 10, tile_type := TileType.pick_station, station_id := some "S1" }),
   (((14 : Int), (10 : Int)), { x := 14, y := 10, tile_type := TileType.pick_station, station_id := some "S1" }),
   (((30 : Int), (10 : Int)), { x := 30, y := 10, tile_type := TileType.pick_station, station_id := some "S3" }),
   (((31 : Int), (10 : Int)), { x := 31, y := 10, tile_type := TileType.pick_station, station_id := some "S3" }),
   (((32 : Int), (10 : Int)), { x := 32, y := 10, tile_type := TileType.pick_station, station_id := some "S3" }),
   (((33 : Int), (10 : Int)), { x := 33, y := 10, tile_type := TileType.pick_station, station_id := some "S3" })]

/-- A world whose only contents are three stationary carts on S1 tiles
(fill rate 0.6, tier 2), for the C7 witness. -/
def c7World : World :=
  { agvs := []
    carts :=
      [{ cart_id := 1, pos := ((10 : Int), (10 : Int)), state := CartState.idle,
         carried_by := none, order := none, process_timer := 0 },
       { cart_id := 2, pos := ((11 : Int), (10 : Int)), state := CartState.idle,
         carried_by := none, order := none, process_timer := 0 },
       { cart_id := 3, pos := ((12 : Int), (10 : Int)), state := CartState.idle,
         carried_by := none, order := none, process_timer := 0 }]
    pending_jobs := []
    active_jobs := []
    completed_orders := 0
    cart_start_times := []
    cycle_times := []
    order_completion_times := []
    station_fill_cache := none
    sim_elapsed := 0
    next_job_id := 1
    next_order_id := 1 }

/-! ## Claim C3: the Pack-off queue alert -/

/-- Four Pack-off parking tiles, for the C3 counterexample. -/
def c3Tiles : Tiles :=
  [(((40 : Int), (8 : Int)), { x := 40, y := 8, tile_type := TileType.parking, station_id := some "Pack_off" }),
   (((41 : Int), (8 : Int)), { x := 41, y := 8, tile_type := TileType.parking, station_id := some "Pack_off" }),
   (((42 : Int), (8 : Int)), { x := 42, y := 8, tile_type := TileType.parking, station_id := some "Pack_off" }),
   (((43 : Int), (8 : Int)), { x := 43, y := 8, tile_type := TileType.parking, station_id := some "Pack_off" })]

/-- A `move_to_packoff` job used by the C3 states. -/
def c3Job (i : Nat) (t : Pos) : Job :=
  { job_id := i, job_type := JobType.move_to_packoff, cart := i,
    target_pos := t, station_id := none, assigned_agv := none }

/-- Four pending pack-off jobs targeting the four Pack-off tiles: the
station is at capacity (all four tiles reserved by job targets) and the
queue depth is 4 > 3. -/
def c3World : World :=
  { agvs := []
    carts := []
    pending_jobs :=
      [c3Job 1 ((40 : Int), (8 : Int)), c3Job 2 ((41 : Int), (8 : Int)),
       c3Job 3 ((42 : Int), (8 : Int)), c3Job 4 ((43 : Int), (8 : Int))]
    active_jobs := []
    completed_orders := 0
    cart_start_times := []
    cycle_times := []
    order_completion_times := []
    station_fill_cache := none
    sim_elapsed := 0
    next_job_id := 5
    next_order_id := 1 }

/-- The same four pack-off jobs targeting tiles away from Pack-off:
queue depth 4 with the station below capacity. -/
def c3WorldB : World :=
  { c3World with
    pending_jobs :=
      [c3Job 1 ((0 : Int), (0 : Int)), c3Job 2 ((1 : Int), (0 : Int)),
       c3Job 3 ((2 : Int), (0 : Int)), c3Job 4 ((3 : Int), (0 : Int))] }

/-! ## Claim C1: cancellation of stuck pickup jobs -/

/-- A two-node graph for the C1 evaluation. -/
def c1Graph : Graph :=
  [(((0 : Int), (0 : Int)), [((1 : Int), (0 : Int))]),
   (((1 : Int), (0 : Int)), [])]

/-- The cart the stuck AGV was dispatched to pick up. -/
def c1Cart : Cart :=
  { cart_id := 7, pos := ((1 : Int), (0 : Int)), state := CartState.idle,
    carried_by := none, order := none, process_timer := 0 }

/-- A fresh AGV before dispatch. -/
def c1FreshAgv : AGV :=
  { agv_id := 1, state := AGVState.idle, pos := ((0 : Int), (0 : Int)),
    target := none, path := [], path_index := 0, path_progress := 0,
    carrying_cart := none, action_timer := 0, current_job := none,
    blocked_timer := 0, last_reroute := 0, is_blocked := false,
    just_rerouted := false }

/-- The stuck AGV: dispatched by `pickup_cart` (so `carrying_cart` is
the target hint `some 7`), blocked for 30 s on the way, holding job 3,
while the cart is still uncarried. -/
def c1StuckAgv : AGV :=
  { agv_id := 1, state := AGVState.moving_to_pickup,
    pos := ((0 : Int), (0 : Int)), target := some ((1 : Int), (0 : Int)),
    path := [((0 : Int), (0 : Int)), ((1 : Int), (0 : Int))], path_index := 0,
    path_progress := mkRat 99 100, carrying_cart := some 7, action_timer := 0,
    current_job := some 3, blocked_timer := 30, last_reroute := 0,
    is_blocked := true, just_rerouted := false }

/-- The failing world: the stuck pickup AGV holds active job 3 for
cart 7. -/
def c1World : World :=
  { agvs := [c1StuckAgv]
    carts := [c1Cart]
    pending_jobs := []
    active_jobs :=
      [{ job_id := 3, job_type := JobType.pickup_to_box_depot, cart := 7,
         target_pos := ((5 : Int), (5 : Int)), station_id := none,
         assigned_agv := some 1 }]
    completed_orders := 0
    cart_start_times := []
    cycle_times := []
    order_completion_times := []
    station_fill_cache := none
    sim_elapsed := 0
    next_job_id := 4
    next_order_id := 1 }

/-- A tiny graph/tile pair for the C9 witness: two parking tiles (one
graph key is a non-placeable highway tile). -/
def c9Tiles : Tiles :=
  [(((0 : Int), (0 : Int)), { x := 0, y := 0, tile_type := TileType.parking, station_id := none }),
   (((1 : Int), (0 : Int)), { x := 1, y := 0, tile_type := TileType.highway, station_id := none }),
   (((2 : Int), (0 : Int)), { x := 2, y := 0, tile_type := TileType.pick_station, station_id := some "S1" })]

def c9Graph : Graph :=
  [(((0 : Int), (0 : Int)), [((1 : Int), (0 : Int))]),
   (((1 : Int), (0 : Int)), [((2 : Int), (0 : Int))]),
   (((2 : Int), (0 : Int)), [])]

/-! ## Claim C4: no two AGVs ever share a tile

The inductive invariant couples pairwise-distinct positions with path
well-formedness (`path[path_index] == pos` for a non-empty path, which
every planner establishes because an A* route starts at the planning
AGV's own position) and id distinctness (the global id counter). -/

/-- Path well-formedness of one AGV. -/
def WFa (a : AGV) : Prop :=
  a.path ≠ [] → a.path.get? a.path_index = some a.pos

instance (a : AGV) : Decidable (WFa a) := by
  unfold WFa
  infer_instance

/-- The combined C4 invariant. -/
def AgvInv (w : World) : Prop :=
  (w.agvs.map (fun a => a.agv_id)).Nodup ∧
    (w.agvs.map (fun a => a.pos)).Nodup ∧
    ∀ a ∈ w.agvs, WFa a

instance (w : World) : Decidable (AgvInv w) := by
  unfold AgvInv
  infer_instance

def c4World : World :=
  { agvs := [{ c1FreshAgv with agv_id := 1, pos := ((0 : Int), (0 : Int)) },
             { c1FreshAgv with agv_id := 2, pos := ((3 : Int), (0 : Int)) }]
    carts := []
    pending_jobs := []
    active_jobs := []
    completed_orders := 0
    cart_start_times := []
    cycle_times := []
    order_completion_times := []
    station_fill_cache := none
    sim_elapsed := 0
    next_job_id := 0
    next_order_id := 0 }

/-! ## Claim C8: distinct job targets

During `_assign_jobs` the very same job object transiently sits in both
`pending_jobs` and `active_jobs` (removal from pending is deferred), so
the faithful invariant is relational: two queued jobs with the same
target tile are the same job (same id from the global counter), and two
queued jobs with the same id share their target. -/

/-- Two queued jobs with the same target tile are the same job. -/
def TargetsOk (l : List Job) : Prop :=
  ∀ j1 ∈ l, ∀ j2 ∈ l, j1.target_pos = j2.target_pos → j1.job_id = j2.job_id

/-- Two queued jobs with the same id share their target tile. -/
def IdTargetOk (l : List Job) : Prop :=
  ∀ j1 ∈ l, ∀ j2 ∈ l, j1.job_id = j2.job_id → j1.target_pos = j2.target_pos

/-- The C8 dispatcher invariant: target-distinctness up to job
identity, plus freshness of the job id counter. -/
def DispInv (w : World) : Prop :=
  TargetsOk (w.pending_jobs ++ w.active_jobs) ∧
    IdTargetOk (w.pending_jobs ++ w.active_jobs) ∧
    ∀ j ∈ w.pending_jobs ++ w.active_jobs, j.job_id < w.next_job_id

instance (l : List Job) : Decidable (TargetsOk l) := by
  unfold TargetsOk
  infer_instance

instance (l : List Job) : Decidable (IdTargetOk l) := by
  unfold IdTargetOk
  infer_instance

instance (w : World) : Decidable (DispInv w) := by
  unfold DispInv
  infer_instance

def c8World : World :=
  { agvs := []
    carts := []
    pending_jobs :=
      [{ job_id := 1, job_type := JobType.move_to_pick, cart := 4,
         target_pos := ((1 : Int), (1 : Int)), station_id := some "S1",
         assigned_agv := none }]
    active_jobs :=
      [{ job_id := 2, job_type := JobType.move_to_packoff, cart := 5,
         target_pos := ((2 : Int), (2 : Int)), station_id := none,
         assigned_agv := none }]
    completed_orders := 0
    cart_start_times := []
    cycle_times := []
    order_completion_times := []
    station_fill_cache := none
    sim_elapsed := 0
    next_job_id := 3
    next_order_id := 0 }

/-! ## Theorems -/

/-! ## Generic association-list lemmas -/

theorem lookup_cons_if {α β : Type} [BEq α] [LawfulBEq α] [DecidableEq α]
    (a k : α) (v : β) (l : List (α × β)) :
    List.lookup a ((k, v) :: l) = if a = k then some v else List.lookup a l := by
  rw [List.lookup_cons]
  by_cases h : a = k
  · simp [h]
  · have hb : (a == k) = false := beq_eq_false_iff_ne.mpr h
    simp [hb, h]

theorem pair_eq_split {α β : Type} {a c : α} {b d : β} (h : (a, b) = (c, d)) :
    a = c ∧ b = d :=
  ⟨congrArg Prod.fst h, congrArg Prod.snd h⟩

/-! ## Claim C2: `Order.all_picked` -/

/-- Claim C2, counterexample: `all_picked` compares lengths, not the
sets themselves.  An order built from picks `[1]` on which station 2 is
(wrongly, but unchecked) completed reports `all_picked = true` although
station 1 of `stations_to_visit` is absent from `completed_stations`. -/
theorem all_picked_length_cex :
    ((Order.make 1 [1]).complete_station 2).all_picked = true ∧
      1 ∈ ((Order.make 1 [1]).complete_station 2).stations_to_visit ∧
      1 ∉ ((Order.make 1 [1]).complete_station 2).completed_stations := by
  decide

/-- Claim C2 (amended): `all_picked` returns true iff
`len(completed_stations) == len(stations_to_visit)`; for every order
whose `completed_stations` are distinct members of `stations_to_visit`
(and whose `stations_to_visit` are distinct, as the constructor
guarantees), this holds iff every station to visit has been completed. -/
theorem all_picked_iff_covered (o : Order)
    (hsub : o.completed_stations ⊆ o.stations_to_visit)
    (hndc : o.completed_stations.Nodup)
    (hnds : o.stations_to_visit.Nodup) :
    o.all_picked = true ↔ ∀ s ∈ o.stations_to_visit, s ∈ o.completed_stations := by
  have hC : o.completed_stations.toFinset.card = o.completed_stations.length :=
    List.toFinset_card_of_nodup hndc
  have hS : o.stations_to_visit.toFinset.card = o.stations_to_visit.length :=
    List.toFinset_card_of_nodup hnds
  have hsubF : o.completed_stations.toFinset ⊆ o.stations_to_visit.toFinset := by
    intro x hx
    rw [List.mem_toFinset] at hx ⊢
    exact hsub hx
  constructor
  · intro h
    have hlen : o.completed_stations.length = o.stations_to_visit.length := by
      simpa [Order.all_picked] using h
    have : o.completed_stations.toFinset = o.stations_to_visit.toFinset := by
      apply Finset.eq_of_subset_of_card_le hsubF
      rw [hC, hS, hlen]
    intro s hs
    have : s ∈ o.completed_stations.toFinset := by
      rw [this, List.mem_toFinset]
      exact hs
    rwa [List.mem_toFinset] at this
  · intro h
    have hsubF' : o.stations_to_visit.toFinset ⊆ o.completed_stations.toFinset := by
      intro x hx
      rw [List.mem_toFinset] at hx ⊢
      exact h x hx
    have : o.completed_stations.toFinset = o.stations_to_visit.toFinset :=
      le_antisymm hsubF hsubF'
    have hlen : o.completed_stations.length = o.stations_to_visit.length := by
      rw [← hC, ← hS, this]
    simpa [Order.all_picked] using hlen

theorem popMin_mem : ∀ {l : List AStarEntry} {e : AStarEntry}
    {rest : List AStarEntry}, popMin l = some (e, rest) →
    e ∈ l ∧ ∀ x ∈ rest, x ∈ l := by
  intro l
  induction l with
  | nil => intro e rest h; simp [popMin] at h
  | cons a as ih =>
    intro e rest h
    cases hp : popMin as with
    | none =>
      simp only [popMin, hp] at h
      obtain ⟨rfl, rfl⟩ := pair_eq_split (Option.some.inj h)
      exact ⟨List.mem_cons_self a as, by intro x hx; simp at hx⟩
    | some mr =>
      obtain ⟨m, r⟩ := mr
      obtain ⟨hm, hr⟩ := ih hp
      simp only [popMin, hp] at h
      by_cases hle : entryLe a m
      · rw [if_pos hle] at h
        obtain ⟨rfl, rfl⟩ := pair_eq_split (Option.some.inj h)
        exact ⟨List.mem_cons_self a as, fun x hx => List.mem_cons_of_mem a hx⟩
      · rw [if_neg hle] at h
        obtain ⟨rfl, rfl⟩ := pair_eq_split (Option.some.inj h)
        refine ⟨List.mem_cons_of_mem a hm, ?_⟩
        intro x hx
        rcases List.mem_cons.mp hx with hx | hx
        · exact hx ▸ List.mem_cons_self a as
        · exact List.mem_cons_of_mem a (hr x hx)

theorem edgeCost_pos (tiles : Tiles) (goal neighbor : Pos) :
    1 ≤ edgeCost tiles goal neighbor := by
  unfold edgeCost
  by_cases h : tiles ≠ [] ∧ neighbor ≠ goal
  · rw [if_pos h]
    cases hl : List.lookup neighbor tiles with
    | none => simp [hl]
    | some tile =>
      simp only [hl]
      split <;> omega
  · rw [if_neg h]

theorem relaxNeighbor_inv {graph : Graph} {blocked : List Pos}
    {start goal : Pos} {tiles : Tiles} {current : Pos} {gCur : Nat}
    {st : AStarState} {neighbor : Pos}
    (hinv : AStarInv graph blocked start goal st.cameFrom st.gScore)
    (hopen : OpenInv st.gScore st.openList)
    (hcur : List.lookup current st.gScore = some gCur)
    (hadj : neighbor ∈ adjacency graph current) :
    AStarInv graph blocked start goal
        (relaxNeighbor goal blocked tiles current gCur st neighbor).cameFrom
        (relaxNeighbor goal blocked tiles current gCur st neighbor).gScore ∧
      OpenInv (relaxNeighbor goal blocked tiles current gCur st neighbor).gScore
        (relaxNeighbor goal blocked tiles current gCur st neighbor).openList ∧
      List.lookup current
          (relaxNeighbor goal blocked tiles current gCur st neighbor).gScore
        = some gCur := by
  unfold relaxNeighbor
  by_cases hskip : blocked ≠ [] ∧ neighbor ∈ blocked ∧ neighbor ≠ goal
  · rw [if_pos hskip]
    exact ⟨hinv, hopen, hcur⟩
  rw [if_neg hskip]
  by_cases hbetter : betterScore st.gScore neighbor (gCur + edgeCost tiles goal neighbor)
  case neg =>
    rw [if_neg hbetter]
    exact ⟨hinv, hopen, hcur⟩
  rw [if_pos hbetter]
  set tent := gCur + edgeCost tiles goal neighbor with htent
  have hcost := edgeCost_pos tiles goal neighbor
  -- the relaxed node cannot be `start` (its score 0 cannot decrease)
  have hns : neighbor ≠ start := by
    intro he
    rw [betterScore, he, hinv.start_g] at hbetter
    simp at hbetter
  -- nor `current` itself (`tent = gCur + cost > gCur`)
  have hnc : neighbor ≠ current := by
    intro he
    rw [betterScore, he, hcur] at hbetter
    simp at hbetter
    omega
  -- the blocked filter was passed
  have hblk : neighbor ∉ blocked ∨ neighbor = goal := by
    by_cases hg : neighbor = goal
    · exact Or.inr hg
    by_cases hb : blocked = []
    · subst hb
      exact Or.inl (by simp)
    · exact Or.inl fun hmem => hskip ⟨hb, hmem, hg⟩
  refine ⟨?_, ?_, ?_⟩
  · refine ⟨?_, ?_, ?_, ?_, ?_⟩
    · -- start_g
      simp only [pushState]
      rw [lookup_cons_if, if_neg (fun he => hns he.symm)]
      exact hinv.start_g
    · -- cf_edge
      intro n p hnp
      simp only [pushState] at hnp
      rw [lookup_cons_if] at hnp
      by_cases hn : n = neighbor
      · rw [if_pos hn] at hnp
        rw [hn, ← Option.some.inj hnp]
        exact hadj
      · rw [if_neg hn] at hnp
        exact hinv.cf_edge n p hnp
    · -- cf_blocked
      intro n p hnp
      simp only [pushState] at hnp
      rw [lookup_cons_if] at hnp
      by_cases hn : n = neighbor
      · rw [hn]
        exact hblk
      · rw [if_neg hn] at hnp
        exact hinv.cf_blocked n p hnp
    · -- cf_g
      intro n p hnp
      simp only [pushState] at hnp
      rw [lookup_cons_if] at hnp
      by_cases hn : n = neighbor
      · rw [if_pos hn] at hnp
        have hp : p = current := (Option.some.inj hnp).symm
        refine ⟨tent, gCur, ?_, ?_, ?_⟩
        · simp only [pushState]
          rw [hn, lookup_cons_if, if_pos rfl]
        · simp only [pushState]
          rw [hp, lookup_cons_if, if_neg (fun he => hnc he.symm)]
          exact hcur
        · omega
      · rw [if_neg hn] at hnp
        obtain ⟨gn, gp, hgn, hgp, hlt⟩ := hinv.cf_g n p hnp
        by_cases hpn : p = neighbor
        · -- the parent's score was just lowered to `tent < gp`
          have htlt : tent < gp := by
            rw [betterScore] at hbetter
            rw [hpn] at hgp
            rw [hgp] at hbetter
            simpa using hbetter
          refine ⟨gn, tent, ?_, ?_, ?_⟩
          · simp only [pushState]
            rw [lookup_cons_if, if_neg hn]
            exact hgn
          · simp only [pushState]
            rw [hpn, lookup_cons_if, if_pos rfl]
          · omega
        · refine ⟨gn, gp, ?_, ?_, hlt⟩
          · simp only [pushState]
            rw [lookup_cons_if, if_neg hn]
            exact hgn
          · simp only [pushState]
            rw [lookup_cons_if, if_neg hpn]
            exact hgp
    · -- gs_cf
      intro n g hng hnstart
      simp only [pushState] at hng ⊢
      rw [lookup_cons_if] at hng
      rw [lookup_cons_if]
      by_cases hn : n = neighbor
      · rw [if_pos hn]
        simp
      · rw [if_neg hn] at hng
        rw [if_neg hn]
        exact hinv.gs_cf n g hng hnstart
  · -- OpenInv
    intro e he
    simp only [pushState] at he ⊢
    rcases List.mem_append.mp he with he | he
    · have := hopen e he
      rw [lookup_cons_if]
      by_cases hn : e.2.2 = neighbor
      · rw [if_pos hn]
        simp
      · rw [if_neg hn]
        exact this
    · simp at he
      rw [he]
      rw [lookup_cons_if]
      simp
  · -- `g_score[current]` unchanged
    simp only [pushState]
    rw [lookup_cons_if, if_neg (fun he => hnc he.symm)]
    exact hcur

theorem foldl_relax_inv {graph : Graph} {blocked : List Pos}
    {start goal : Pos} {tiles : Tiles} {current : Pos} {gCur : Nat} :
    ∀ (l : List Pos) (st : AStarState),
      (∀ x ∈ l, x ∈ adjacency graph current) →
      AStarInv graph blocked start goal st.cameFrom st.gScore →
      OpenInv st.gScore st.openList →
      List.lookup current st.gScore = some gCur →
      AStarInv graph blocked start goal
          (l.foldl (relaxNeighbor goal blocked tiles current gCur) st).cameFrom
          (l.foldl (relaxNeighbor goal blocked tiles current gCur) st).gScore ∧
        OpenInv (l.foldl (relaxNeighbor goal blocked tiles current gCur) st).gScore
          (l.foldl (relaxNeighbor goal blocked tiles current gCur) st).openList := by
  intro l
  induction l with
  | nil => intro st _ h1 h2 _; exact ⟨h1, h2⟩
  | cons x xs ih =>
    intro st hadj h1 h2 h3
    obtain ⟨h1', h2', h3'⟩ :=
      relaxNeighbor_inv h1 h2 h3 (hadj x (List.mem_cons_self x xs))
    exact ih _ (fun y hy => hadj y (List.mem_cons_of_mem x hy)) h1' h2' h3'

theorem reconstruct_head (cf : List (Pos × Pos)) (fuel : Nat) (cur : Pos) :
    (reconstruct cf fuel cur).head? = some cur := by
  cases fuel with
  | zero => rfl
  | succ n => cases h : List.lookup cur cf <;> simp [reconstruct, h]

theorem reconstruct_spec {graph : Graph} {blocked : List Pos}
    {start goal : Pos} {cf : List (Pos × Pos)} {gs : List (Pos × Nat)}
    (hinv : AStarInv graph blocked start goal cf gs) :
    ∀ (fuel : Nat) (cur : Pos) (g : Nat),
      List.lookup cur gs = some g → g < fuel →
      (reconstruct cf fuel cur).getLast? = some start ∧
      List.Chain' (fun a b => edgeOf graph b a) (reconstruct cf fuel cur) ∧
      ∀ x ∈ reconstruct cf fuel cur, x = start ∨ x ∉ blocked ∨ x = goal := by
  intro fuel
  induction fuel with
  | zero => intro cur g _ hlt; omega
  | succ n ih =>
    intro cur g hg hlt
    cases hcf : List.lookup cur cf with
    | none =>
      have hcs : cur = start := by
        by_contra hne
        have := hinv.gs_cf cur g hg hne
        rw [hcf] at this
        simp at this
      subst hcs
      refine ⟨?_, ?_, ?_⟩
      · simp [reconstruct, hcf]
      · simp [reconstruct, hcf]
      · intro x hx
        simp [reconstruct, hcf] at hx
        exact Or.inl hx
    | some p =>
      obtain ⟨gn, gp, hgn, hgp, hlt'⟩ := hinv.cf_g cur p hcf
      have hgng : gn = g := by
        rw [hg] at hgn
        exact (Option.some.inj hgn).symm
      have hplt : gp < n := by omega
      obtain ⟨ihLast, ihChain, ihMem⟩ := ih p gp hgp hplt
      have hrec : reconstruct cf (n + 1) cur = cur :: reconstruct cf n p := by
        simp [reconstruct, hcf]
      rw [hrec]
      have hne : reconstruct cf n p ≠ [] := by
        intro h
        have := reconstruct_head cf n p
        rw [h] at this
        simp at this
      refine ⟨?_, ?_, ?_⟩
      · rw [List.getLast?_cons, ihLast]
        simp
      · rw [List.chain'_cons']
        refine ⟨?_, ihChain⟩
        intro y hy
        rw [reconstruct_head cf n p] at hy
        have hyp : p = y := by simpa using hy
        rw [← hyp]
        exact hinv.cf_edge cur p hcf
      · intro x hx
        rcases List.mem_cons.mp hx with hx | hx
        · rcases hinv.cf_blocked cur p hcf with h | h
          · exact Or.inr (Or.inl (hx ▸ h))
          · exact Or.inr (Or.inr (hx ▸ h))
        · exact ihMem x hx

theorem astarLoop_spec {graph : Graph} {blocked : List Pos}
    {start goal : Pos} {tiles : Tiles} :
    ∀ (fuel : Nat) (st : AStarState) (path : List Pos),
      AStarInv graph blocked start goal st.cameFrom st.gScore →
      OpenInv st.gScore st.openList →
      astarLoop graph goal blocked tiles fuel st = some path →
      path.head? = some start ∧ path.getLast? = some goal ∧
      List.Chain' (edgeOf graph) path ∧
      ∀ x ∈ path, x ≠ start → x ≠ goal → x ∉ blocked := by
  intro fuel
  induction fuel with
  | zero => intro st path _ _ h; simp [astarLoop] at h
  | succ n ih =>
    intro st path hinv hopen hrun
    rw [astarLoop] at hrun
    cases hpop : popMin st.openList with
    | none =>
      rw [hpop] at hrun
      simp at hrun
    | some pr =>
      obtain ⟨⟨f, c, current⟩, rest⟩ := pr
      rw [hpop] at hrun
      simp only [] at hrun
      by_cases hcur : current = goal
      · rw [if_pos hcur] at hrun
        have hmem := (popMin_mem hpop).1
        have hgsome : (List.lookup current st.gScore).isSome := hopen _ hmem
        obtain ⟨g, hg⟩ := Option.isSome_iff_exists.mp hgsome
        rw [hg] at hrun
        simp only [Option.getD_some] at hrun
        obtain ⟨specLast, specChain, specMem⟩ :=
          reconstruct_spec hinv (g + 1) current g hg (by omega)
        have hpath : path = (reconstruct st.cameFrom (g + 1) current).reverse :=
          (Option.some.inj hrun).symm
        subst hpath
        refine ⟨?_, ?_, ?_, ?_⟩
        · rw [List.head?_reverse]
          exact specLast
        · rw [List.getLast?_reverse, reconstruct_head]
          rw [hcur]
        · rw [List.chain'_reverse]
          exact specChain
        · intro x hx hxs hxg
          rcases specMem x (List.mem_reverse.mp hx) with h | h | h
          · exact absurd h hxs
          · exact h
          · exact absurd (hcur ▸ h) hxg
      · rw [if_neg hcur] at hrun
        cases hgcur : List.lookup current st.gScore with
        | none =>
          rw [hgcur] at hrun
          simp at hrun
        | some gCur =>
          rw [hgcur] at hrun
          have hopenRest : OpenInv st.gScore rest :=
            fun e he => hopen e ((popMin_mem hpop).2 e he)
          obtain ⟨hinv', hopen'⟩ :=
            foldl_relax_inv (adjacency graph current)
              { st with openList := rest } (fun x hx => hx) hinv hopenRest hgcur
          exact ih _ path hinv' hopen' hrun

/-- Full partial-correctness of `astar`, shared by several claims. -/
theorem astar_spec {graph : Graph} {start goal : Pos}
    {blocked : List Pos} {tiles : Tiles} {path : List Pos}
    (h : astar graph start goal blocked tiles = some path) :
    path.head? = some start ∧ path.getLast? = some goal ∧
      List.Chain' (edgeOf graph) path ∧
      ∀ x ∈ path, x ≠ start → x ≠ goal → x ∉ blocked := by
  unfold astar at h
  split at h
  case isFalse => simp at h
  case isTrue hc =>
    refine astarLoop_spec (astarFuel graph) _ path ?_ ?_ h
    · refine ⟨?_, ?_, ?_, ?_, ?_⟩
      · rw [lookup_cons_if, if_pos rfl]
      · intro n p hnp
        simp at hnp
      · intro n p hnp
        simp at hnp
      · intro n p hnp
        simp at hnp
      · intro n g hng hns
        rw [lookup_cons_if] at hng
        rw [if_neg hns] at hng
        simp at hng
    · intro e he
      simp at he
      rw [he]
      simp only []
      rw [lookup_cons_if, if_pos rfl]
      simp

/-- A returned path starts at the AGV's own position: the planners'
paths all satisfy `path[0] == self.pos`. -/
theorem astar_head {graph : Graph} {start goal : Pos} {blocked : List Pos}
    {tiles : Tiles} {path : List Pos}
    (h : astar graph start goal blocked tiles = some path) :
    path.head? = some start :=
  (astar_spec h).1

/-- Claim C6: if `astar` returns a path then it begins with `start`,
ends with `goal`, every adjacent pair of consecutive nodes is a
directed edge of the graph, and no node other than the two endpoints
lies in `blocked` (path nodes are pairwise distinct, so these are
exactly the interior nodes; the goal itself may be blocked). -/
theorem astar_path_valid (graph : Graph) (start goal : Pos)
    (blocked : List Pos) (tiles : Tiles) (path : List Pos)
    (h : astar graph start goal blocked tiles = some path) :
    path.head? = some start ∧ path.getLast? = some goal ∧
      List.Chain' (edgeOf graph) path ∧
      ∀ x ∈ path, x ≠ start → x ≠ goal → x ∉ blocked :=
  astar_spec h

/-- Witness for C6 on `c6Graph` with `(1, 0)` blocked: the returned
path is the detour through `(0, 1)`. -/
theorem astar_path_valid_witness :
    ([((0 : Int), (0 : Int)), ((0 : Int), (1 : Int)), ((1 : Int), (1 : Int))] :
        List Pos).head? = some ((0 : Int), (0 : Int)) ∧
      ([((0 : Int), (0 : Int)), ((0 : Int), (1 : Int)), ((1 : Int), (1 : Int))] :
        List Pos).getLast? = some ((1 : Int), (1 : Int)) ∧
      List.Chain' (edgeOf c6Graph)
        [((0 : Int), (0 : Int)), ((0 : Int), (1 : Int)), ((1 : Int), (1 : Int))] ∧
      ∀ x ∈ ([((0 : Int), (0 : Int)), ((0 : Int), (1 : Int)), ((1 : Int), (1 : Int))] :
          List Pos), x ≠ ((0 : Int), (0 : Int)) → x ≠ ((1 : Int), (1 : Int)) →
        x ∉ [((1 : Int), (0 : Int))] :=
  astar_path_valid c6Graph ((0 : Int), (0 : Int)) ((1 : Int), (1 : Int))
    [((1 : Int), (0 : Int))] [] _ (by decide)

/-- One unfolding of the loop when the single queued node is the goal
itself. -/
theorem astarLoop_start_is_goal (graph : Graph) (s : Pos)
    (blocked : List Pos) (tiles : Tiles) (f0 : Nat) (n : Nat) :
    astarLoop graph s blocked tiles (n + 1)
      { openList := [(f0, 0, s)], cameFrom := [], gScore := [(s, 0)],
        counter := 0 } = some [s] := by
  rw [astarLoop]
  have hpop : popMin [(f0, 0, s)] = some ((f0, 0, s), []) := rfl
  rw [hpop]
  simp only [if_pos rfl]
  rw [lookup_cons_if, if_pos rfl]
  rfl

/-- Claim C10: for a start node present in the graph, `astar` from `s`
to `s` immediately returns the singleton path `[s]`, even when `s`
itself is in the blocked set (which only filters neighbours). -/
theorem astar_self (graph : Graph) (s : Pos) (blocked : List Pos)
    (tiles : Tiles) (h : (List.lookup s graph).isSome) :
    astar graph s s blocked tiles = some [s] := by
  unfold astar
  rw [if_pos ⟨h, h⟩]
  have hf : astarFuel graph = (astarFuel graph - 1) + 1 := by
    unfold astarFuel
    omega
  rw [hf]
  exact astarLoop_start_is_goal graph s blocked tiles (manhattan s s) _

/-- Witness for C10 on a one-node graph whose node is also blocked. -/
theorem astar_self_witness :
    astar [(((0 : Int), (0 : Int)), ([] : List Pos))] ((0 : Int), (0 : Int))
      ((0 : Int), (0 : Int)) [((0 : Int), (0 : Int))] [] =
      some [((0 : Int), (0 : Int))] :=
  astar_self _ _ _ _ (by decide)

/-- Witness for C2's amended theorem at a concrete order. -/
theorem all_picked_iff_covered_witness :
    c2Order.all_picked = true ↔
      ∀ s ∈ c2Order.stations_to_visit, s ∈ c2Order.completed_stations :=
  all_picked_iff_covered c2Order (by decide) (by decide) (by decide)

/-! ## Claim C5: the occupancy test and the advance decision -/

theorem find?_cart_id {carts : List Cart} {c : Cart} {cid : Nat}
    (hnd : (carts.map Cart.cart_id).Nodup) (hc : c ∈ carts)
    (hid : c.cart_id = cid) :
    carts.find? (fun x => decide (x.cart_id = cid)) = some c := by
  induction carts with
  | nil => simp at hc
  | cons h t ih =>
    rcases List.mem_cons.mp hc with rfl | hct
    · rw [List.find?_cons_of_pos _ (by simp [hid])]
    · rw [List.map_cons] at hnd
      have hnd' := List.nodup_cons.mp hnd
      have hne : ¬(h.cart_id = cid) := by
        intro he
        have : c.cart_id ∈ t.map Cart.cart_id := List.mem_map_of_mem _ hct
        rw [hid, ← he] at this
        exact hnd'.1 this
      rw [List.find?_cons_of_neg _ (by simp [hne])]
      exact ih hnd'.2 hct

theorem actuallyCarrying_iff (a : AGV) (carts : List Cart)
    (hnd : (carts.map Cart.cart_id).Nodup) :
    actuallyCarrying a carts = true ↔
      ∃ cid c, a.carrying_cart = some cid ∧ c ∈ carts ∧ c.cart_id = cid ∧
        c.carried_by = some a.agv_id := by
  unfold actuallyCarrying
  cases hcc : a.carrying_cart with
  | none =>
    simp only [Option.map_none', Option.getD_none, Bool.false_eq_true, false_iff]
    rintro ⟨cid2, c, hcc2, _⟩
    exact absurd hcc2 (by simp)
  | some cid =>
    simp only [Option.map_some', Option.getD_some]
    cases hf : carts.find? (fun c => decide (c.cart_id = cid)) with
    | none =>
      simp only [Option.map_none', Option.getD_none, Bool.false_eq_true, false_iff]
      rintro ⟨cid2, c, hcc2, hcm, hcid, _⟩
      have hcid2 : cid2 = cid := (Option.some.inj hcc2).symm
      have := find?_cart_id hnd hcm (hcid2 ▸ hcid)
      rw [hf] at this
      exact absurd this (by simp)
    | some c =>
      simp only [Option.map_some', Option.getD_some, decide_eq_true_iff]
      constructor
      · intro h
        refine ⟨cid, c, rfl, List.mem_of_find?_eq_some hf, ?_, h⟩
        have := List.find?_some hf
        simpa using this
      · rintro ⟨cid2, c2, hcc2, hcm, hcid, hcb⟩
        have hcid2 : cid2 = cid := (Option.some.inj hcc2).symm
        have := find?_cart_id hnd hcm (hcid2 ▸ hcid)
        rw [hf] at this
        rw [Option.some.inj this]
        exact hcb

/-- Claim C5: the next path tile is judged occupied iff (a) some other
AGV's position equals it or (b) this AGV actually carries its cart
(`carrying_cart` set and that cart's `carried_by` is this AGV) and some
uncarried cart sits there; when the loop guard holds, a clear tile
means the iteration advances onto it, an occupied tile means the
iteration leaves the position unchanged (blocked or rerouting). -/
theorem occupied_iff_blocks_advance (dt : Rat) (graph : Graph)
    (tiles : Tiles) (a : AGV) (agvs : List AGV) (carts : List Cart)
    (hnd : (carts.map Cart.cart_id).Nodup)
    (hprog : 1 ≤ a.path_progress) (hidx : a.path_index + 1 < a.path.length) :
    (occupiedCheck a agvs carts (a.path.getD (a.path_index + 1) a.pos) = true ↔
      (∃ o ∈ agvs, o.agv_id ≠ a.agv_id ∧
        o.pos = a.path.getD (a.path_index + 1) a.pos) ∨
      ((∃ cid c, a.carrying_cart = some cid ∧ c ∈ carts ∧ c.cart_id = cid ∧
          c.carried_by = some a.agv_id) ∧
        ∃ c ∈ carts, c.carried_by = none ∧
          c.pos = a.path.getD (a.path_index + 1) a.pos)) ∧
    (occupiedCheck a agvs carts (a.path.getD (a.path_index + 1) a.pos) = false →
      (moveLoop dt graph tiles agvs 1 a carts).1.pos =
          a.path.getD (a.path_index + 1) a.pos ∧
      (moveLoop dt graph tiles agvs 1 a carts).1.path_index = a.path_index + 1) ∧
    (occupiedCheck a agvs carts (a.path.getD (a.path_index + 1) a.pos) = true →
      (moveLoop dt graph tiles agvs 1 a carts).1.pos = a.pos) := by
  refine ⟨?_, ?_, ?_⟩
  · rw [occupiedCheck]
    rw [Bool.or_eq_true, Bool.and_eq_true]
    rw [actuallyCarrying_iff a carts hnd]
    simp [List.any_eq_true]
  · intro hocc
    simp only [moveLoop]
    rw [if_pos ⟨hprog, hidx⟩, hocc]
    simp [moveLoop]
  · intro hocc
    simp only [moveLoop]
    rw [if_pos ⟨hprog, hidx⟩, hocc]
    simp only [if_true]
    by_cases hg : graph ≠ [] ∧ a.just_rerouted = false
    · rw [if_pos hg]
      cases hast : astar graph a.pos (a.target.getD (a.path.getLastD a.pos))
          (otherAgvBlocked agvs a.agv_id) tiles with
      | none => simp [blockedStop]
      | some alt =>
        simp only []
        by_cases halt : alt.length > 1 ∧
            alt.getD 1 a.pos ≠ a.path.getD (a.path_index + 1) a.pos
        · rw [if_pos halt]
        · rw [if_neg halt]
          simp [blockedStop]
    · rw [if_neg hg]
      simp [blockedStop]

/-- Witness for C5 at `c5Agv` with no other AGVs and a single
uncarried cart off the path. -/
theorem occupied_iff_blocks_advance_witness :
    (occupiedCheck c5Agv [c5Agv] [c5Cart]
        (c5Agv.path.getD (c5Agv.path_index + 1) c5Agv.pos) = true ↔
      (∃ o ∈ [c5Agv], o.agv_id ≠ c5Agv.agv_id ∧
        o.pos = c5Agv.path.getD (c5Agv.path_index + 1) c5Agv.pos) ∨
      ((∃ cid c, c5Agv.carrying_cart = some cid ∧ c ∈ [c5Cart] ∧
          c.cart_id = cid ∧ c.carried_by = some c5Agv.agv_id) ∧
        ∃ c ∈ [c5Cart], c.carried_by = none ∧
          c.pos = c5Agv.path.getD (c5Agv.path_index + 1) c5Agv.pos)) ∧
    (occupiedCheck c5Agv [c5Agv] [c5Cart]
        (c5Agv.path.getD (c5Agv.path_index + 1) c5Agv.pos) = false →
      (moveLoop 1 [] [] [c5Agv] 1 c5Agv [c5Cart]).1.pos =
          c5Agv.path.getD (c5Agv.path_index + 1) c5Agv.pos ∧
      (moveLoop 1 [] [] [c5Agv] 1 c5Agv [c5Cart]).1.path_index =
          c5Agv.path_index + 1) ∧
    (occupiedCheck c5Agv [c5Agv] [c5Cart]
        (c5Agv.path.getD (c5Agv.path_index + 1) c5Agv.pos) = true →
      (moveLoop 1 [] [] [c5Agv] 1 c5Agv [c5Cart]).1.pos = c5Agv.pos) :=
  occupied_iff_blocks_advance 1 [] [] c5Agv [c5Agv] [c5Cart] (by decide)
    (by decide) (by decide)

/-! ## Claim C7: `_pick_best_station` -/

theorem stationCand_eq_none_iff (tiles : Tiles)
    (fill : List (String × (Nat × Nat × Rat))) (cart_pos : Pos) (s : Nat) :
    stationCand tiles fill cart_pos s = none ↔
      (stationFillFor fill s).1 ≥ (stationFillFor fill s).2.1 := by
  unfold stationCand
  by_cases h : (stationFillFor fill s).1 ≥ (stationFillFor fill s).2.1
  · simp [h]
  · simp [h]

/-- Claim C7: stations at capacity are excluded; `none` is returned
exactly when every remaining station is at capacity; otherwise the
returned station is a remaining station below capacity that is minimal
in the `(tier, Manhattan distance)` lexicographic order among all
remaining stations below capacity. -/
theorem pick_best_station_spec (tiles : Tiles) (w : World)
    (remaining : List Nat) (cart_pos : Pos) :
    (pickBestStation tiles w remaining cart_pos = none ↔
      ∀ s ∈ remaining,
        (stationFillFor (getStationFill tiles w) s).1 ≥
          (stationFillFor (getStationFill tiles w) s).2.1) ∧
    ∀ s, pickBestStation tiles w remaining cart_pos = some s →
      s ∈ remaining ∧
      (stationFillFor (getStationFill tiles w) s).1 <
        (stationFillFor (getStationFill tiles w) s).2.1 ∧
      ∀ t ∈ remaining,
        (stationFillFor (getStationFill tiles w) t).1 <
          (stationFillFor (getStationFill tiles w) t).2.1 →
        (stationTier (getStationFill tiles w) s <
            stationTier (getStationFill tiles w) t ∨
          (stationTier (getStationFill tiles w) s =
              stationTier (getStationFill tiles w) t ∧
            stationDist tiles cart_pos s ≤ stationDist tiles cart_pos t)) := by
  have hperm : (List.insertionSort candLe
      (remaining.filterMap (stationCand tiles (getStationFill tiles w) cart_pos))).Perm
      (remaining.filterMap (stationCand tiles (getStationFill tiles w) cart_pos)) :=
    List.perm_insertionSort candLe _
  have hsort : List.Sorted candLe (List.insertionSort candLe
      (remaining.filterMap (stationCand tiles (getStationFill tiles w) cart_pos))) :=
    List.sorted_insertionSort candLe _
  constructor
  · -- `none` iff all candidates are filtered out as full
    unfold pickBestStation
    rw [Option.map_eq_none']
    rw [List.head?_eq_none_iff]
    constructor
    · intro h s hs
      have : remaining.filterMap (stationCand tiles (getStationFill tiles w) cart_pos) = [] := by
        have := hperm.length_eq
        rw [h] at this
        exact List.eq_nil_of_length_eq_zero this.symm
      rw [List.filterMap_eq_nil_iff] at this
      exact (stationCand_eq_none_iff tiles _ cart_pos s).mp (this s hs)
    · intro h
      have hnil : remaining.filterMap (stationCand tiles (getStationFill tiles w) cart_pos) = [] := by
        rw [List.filterMap_eq_nil_iff]
        intro s hs
        exact (stationCand_eq_none_iff tiles _ cart_pos s).mpr (h s hs)
      rw [hnil] at hperm ⊢
      exact List.Perm.eq_nil hperm
  · intro s hs
    unfold pickBestStation at hs
    rw [Option.map_eq_some'] at hs
    obtain ⟨c, hc, hcs⟩ := hs
    -- c is the head of the sorted candidate list
    have hmemSorted : c ∈ List.insertionSort candLe
        (remaining.filterMap (stationCand tiles (getStationFill tiles w) cart_pos)) :=
      List.mem_of_mem_head? hc
    have hmemCands : c ∈ remaining.filterMap
        (stationCand tiles (getStationFill tiles w) cart_pos) :=
      hperm.mem_iff.mp hmemSorted
    rw [List.mem_filterMap] at hmemCands
    obtain ⟨s0, hs0, hcand⟩ := hmemCands
    -- unpack the candidate triple
    unfold stationCand at hcand
    by_cases hfull : (stationFillFor (getStationFill tiles w) s0).1 ≥
        (stationFillFor (getStationFill tiles w) s0).2.1
    · rw [if_pos hfull] at hcand
      exact absurd hcand (by simp)
    rw [if_neg hfull] at hcand
    have hc0 : c = (stationTier (getStationFill tiles w) s0,
        stationDist tiles cart_pos s0, s0) := (Option.some.inj hcand).symm
    have hss0 : s = s0 := by
      rw [hc0] at hcs
      exact hcs.symm
    subst hss0
    refine ⟨hs0, lt_of_not_ge hfull, ?_⟩
    intro t ht htlt
    -- t's candidate is in the candidate list
    have hcandt : stationCand tiles (getStationFill tiles w) cart_pos t =
        some (stationTier (getStationFill tiles w) t,
          stationDist tiles cart_pos t, t) := by
      unfold stationCand
      rw [if_neg (not_le.mpr htlt)]
    have hmemt : (stationTier (getStationFill tiles w) t,
        stationDist tiles cart_pos t, t) ∈
        remaining.filterMap (stationCand tiles (getStationFill tiles w) cart_pos) := by
      rw [List.mem_filterMap]
      exact ⟨t, ht, hcandt⟩
    have hmemtSorted := hperm.mem_iff.mpr hmemt
    -- the head of a sorted list is `candLe` everything in it
    have hle : candLe c (stationTier (getStationFill tiles w) t,
        stationDist tiles cart_pos t, t) := by
      cases hlist : List.insertionSort candLe
          (remaining.filterMap (stationCand tiles (getStationFill tiles w) cart_pos)) with
      | nil =>
        rw [hlist] at hc
        exact absurd hc (by simp)
      | cons x rest =>
        rw [hlist] at hc hmemtSorted
        have hx : x = c := by simpa using hc
        rw [hlist] at hsort
        rcases List.mem_cons.mp hmemtSorted with he | he
        · rw [he, hx]
          -- `candLe` is reflexive
          exact Or.inr ⟨rfl, Or.inr ⟨rfl, le_refl _⟩⟩
        · exact hx ▸ (List.sorted_cons.mp hsort).1 _ he
    rw [hc0] at hle
    rcases hle with h | ⟨he, h⟩
    · exact Or.inl h
    · rcases h with h | ⟨he2, _⟩
      · exact Or.inr ⟨he, le_of_lt h⟩
      · exact Or.inr ⟨he, le_of_eq he2⟩

/-- Witness for C7: with S1 three-fifths full (tier 2) and S3 empty
(tier 1), station 3 is picked and is tier/distance-minimal. -/
theorem pick_best_station_spec_witness :
    3 ∈ [1, 3] ∧
    (stationFillFor (getStationFill c7Tiles c7World) 3).1 <
      (stationFillFor (getStationFill c7Tiles c7World) 3).2.1 ∧
    ∀ t ∈ [1, 3],
      (stationFillFor (getStationFill c7Tiles c7World) t).1 <
        (stationFillFor (getStationFill c7Tiles c7World) t).2.1 →
      (stationTier (getStationFill c7Tiles c7World) 3 <
          stationTier (getStationFill c7Tiles c7World) t ∨
        (stationTier (getStationFill c7Tiles c7World) 3 =
            stationTier (getStationFill c7Tiles c7World) t ∧
          stationDist c7Tiles ((9 : Int), (20 : Int)) 3 ≤
            stationDist c7Tiles ((9 : Int), (20 : Int)) t)) :=
  (pick_best_station_spec c7Tiles c7World [1, 3] ((9 : Int), (20 : Int))).2 3
    (by decide)

/-- Claim C3, counterexample: in `c3World` the `move_to_packoff` count
exceeds 3, yet the alert list is exactly `["Pack-off FULL"]` — the
queue alert sits in an `elif` and is suppressed whenever Pack-off is at
capacity. -/
theorem packoff_queue_alert_cex :
    ((c3World.pending_jobs ++ c3World.active_jobs).filter
      (fun j => decide (j.job_type = JobType.move_to_packoff))).length > 3 ∧
    getBottleneckAlerts c3Tiles c3World = ["Pack-off FULL"] ∧
    "Pack-off queue > 3" ∉ getBottleneckAlerts c3Tiles c3World := by
  decide

/-- Claim C3 (amended): when the `move_to_packoff` count among pending
and active jobs exceeds 3 AND Pack-off is below capacity (in the fill
snapshot the alert reads), the alert list contains
"Pack-off queue > 3". -/
theorem packoff_queue_alert (tiles : Tiles) (w : World)
    (hnotfull :
      ((List.lookup "Pack_off" ((w.station_fill_cache).getD
        (getStationFill tiles w))).getD (0, 4, 0)).1 <
      ((List.lookup "Pack_off" ((w.station_fill_cache).getD
        (getStationFill tiles w))).getD (0, 4, 0)).2.1)
    (hqueue : ((w.pending_jobs ++ w.active_jobs).filter
      (fun j => decide (j.job_type = JobType.move_to_packoff))).length > 3) :
    "Pack-off queue > 3" ∈ getBottleneckAlerts tiles w := by
  simp only [getBottleneckAlerts]
  rw [if_neg (not_le.mpr hnotfull), if_pos hqueue]
  exact List.mem_append_left _ (List.mem_append_left _ (List.mem_singleton.mpr rfl))

/-- Witness for C3's amended theorem at `c3WorldB`. -/
theorem packoff_queue_alert_witness :
    "Pack-off queue > 3" ∈ getBottleneckAlerts c3Tiles c3WorldB :=
  packoff_queue_alert c3Tiles c3WorldB (by decide) (by decide)

/-- Claim C1 (code bug): `pickup_cart` always records the cart as
`carrying_cart` at dispatch time, so an AGV in `moving_to_pickup` never
has `carrying_cart is None` — yet case 1 of `_cancel_stuck_jobs`
requires exactly that.  At the failing input (an AGV stuck ≥ 30 s while
heading to its pickup, its job active, the cart uncarried) the
cancel-stuck step changes nothing: the job is not detached, not
re-queued, and the AGV is not cleared. -/
theorem cancel_stuck_pickup_dead :
    (c1FreshAgv.pickup_cart c1Cart c1Graph [] []).map
        (fun a => (a.state, a.carrying_cart)) =
      some (AGVState.moving_to_pickup, some 7) ∧
    c1StuckAgv.is_blocked = true ∧
    c1StuckAgv.blocked_timer ≥ JOB_CANCEL_TIMEOUT ∧
    c1StuckAgv.state = AGVState.moving_to_pickup ∧
    c1StuckAgv.current_job = some 3 ∧
    c1Cart.carried_by = none ∧
    cancelStuckJobs c1Graph [] c1World = c1World := by
  decide

/-! ## Claim C9: headless pre-placement -/

/-- Claim C9: the pre-placer raises iff the requested entities exceed
the parking/pick_station tiles of the graph; otherwise the AGVs and
carts land on distinct parking/pick_station tiles (for any shuffle
outcome). -/
theorem run_headless_place_spec (graph : Graph) (tiles : Tiles)
    (num_agvs num_carts : Nat) (shuffled : List Pos)
    (hperm : shuffled.Perm (placeableTiles graph tiles)) :
    ((∃ msg, runHeadlessPlace num_agvs num_carts shuffled = Except.error msg) ↔
      num_agvs + num_carts > (placeableTiles graph tiles).length) ∧
    ∀ agvPos cartPos,
      runHeadlessPlace num_agvs num_carts shuffled = Except.ok (agvPos, cartPos) →
      agvPos.length = num_agvs ∧ cartPos.length = num_carts ∧
      (∀ p ∈ agvPos ++ cartPos, ∃ t, List.lookup p tiles = some t ∧
        (t.tile_type = TileType.parking ∨ t.tile_type = TileType.pick_station)) ∧
      ((graph.map (fun kv => kv.1)).Nodup → (agvPos ++ cartPos).Nodup) := by
  have hlen : shuffled.length = (placeableTiles graph tiles).length :=
    hperm.length_eq
  constructor
  · unfold runHeadlessPlace
    by_cases h : num_agvs + num_carts > shuffled.length
    · rw [if_pos h]
      constructor
      · intro _
        rw [← hlen]
        exact h
      · intro _
        exact ⟨_, rfl⟩
    · rw [if_neg h]
      constructor
      · rintro ⟨msg, hmsg⟩
        exact absurd hmsg (by simp)
      · intro hgt
        rw [← hlen] at hgt
        exact absurd hgt h
  · intro agvPos cartPos hok
    unfold runHeadlessPlace at hok
    by_cases h : num_agvs + num_carts > shuffled.length
    · rw [if_pos h] at hok
      exact absurd hok (by simp)
    rw [if_neg h] at hok
    have hpair := Except.ok.inj hok
    obtain ⟨ha, hc⟩ := pair_eq_split hpair
    push_neg at h
    refine ⟨?_, ?_, ?_, ?_⟩
    · rw [← ha]
      rw [List.length_take]
      omega
    · rw [← hc]
      rw [List.length_take, List.length_drop]
      omega
    · intro p hp
      have hpshuf : p ∈ shuffled := by
        rcases List.mem_append.mp hp with hp | hp
        · exact List.take_subset _ _ (ha ▸ hp)
        · exact List.drop_subset _ _ (List.take_subset _ _ (hc ▸ hp))
      have hpl : p ∈ placeableTiles graph tiles := hperm.mem_iff.mp hpshuf
      unfold placeableTiles at hpl
      rw [List.mem_filter] at hpl
      obtain ⟨_, hfilter⟩ := hpl
      cases hlook : List.lookup p tiles with
      | none =>
        rw [hlook] at hfilter
        exact absurd hfilter (by simp)
      | some t =>
        rw [hlook] at hfilter
        exact ⟨t, rfl, by simpa using hfilter⟩
    · intro hkeys
      have hplnd : (placeableTiles graph tiles).Nodup := by
        unfold placeableTiles
        exact List.Nodup.filter _ hkeys
      have hshufnd : shuffled.Nodup := hperm.nodup_iff.mpr hplnd
      have hsub : (agvPos ++ cartPos).Sublist shuffled := by
        rw [← ha, ← hc]
        calc (shuffled.take num_agvs ++ (shuffled.drop num_agvs).take num_carts).Sublist
              (shuffled.take num_agvs ++ shuffled.drop num_agvs) :=
                List.Sublist.append_left (List.take_sublist _ _) _
          _ = shuffled := List.take_append_drop _ _
      exact hshufnd.sublist hsub

/-- Witness for C9: identity shuffle on the two placeable tiles. -/
theorem run_headless_place_spec_witness :
    ((∃ msg, runHeadlessPlace 1 1 (placeableTiles c9Graph c9Tiles) =
        Except.error msg) ↔
      1 + 1 > (placeableTiles c9Graph c9Tiles).length) ∧
    ∀ agvPos cartPos,
      runHeadlessPlace 1 1 (placeableTiles c9Graph c9Tiles) =
        Except.ok (agvPos, cartPos) →
      agvPos.length = 1 ∧ cartPos.length = 1 ∧
      (∀ p ∈ agvPos ++ cartPos, ∃ t, List.lookup p c9Tiles = some t ∧
        (t.tile_type = TileType.parking ∨ t.tile_type = TileType.pick_station)) ∧
      ((c9Graph.map (fun kv => kv.1)).Nodup → (agvPos ++ cartPos).Nodup) :=
  run_headless_place_spec c9Graph c9Tiles 1 1 _ (List.Perm.refl _)

theorem get?_getD_of_lt {l : List Pos} {i : Nat} (h : i < l.length) (d : Pos) :
    l.get? i = some (l.getD i d) := by
  have hg : l.getD i d = (l.get? i).getD d := rfl
  cases hgq : l.get? i with
  | none =>
    rw [List.get?_eq_none] at hgq
    omega
  | some x =>
    rw [hgq] at hg
    rw [hg]
    rfl

theorem getLastD_of_get? {l : List Pos} {i : Nat} {x : Pos}
    (h : l.get? i = some x) (hlen : l.length ≤ i + 1) (d : Pos) :
    l.getLastD d = x := by
  have hi : i < l.length := by
    by_contra hc
    rw [not_lt, ← List.get?_eq_none] at hc
    rw [hc] at h
    exact absurd h (by simp)
  have hieq : i = l.length - 1 := by omega
  rw [List.getLastD_eq_getLast?, List.getLast?_eq_get?, ← hieq, h]
  rfl

theorem set_destination_fields {a : AGV} {goal : Pos} {graph : Graph}
    {tiles : Tiles} {blocked : List Pos} {a2 : AGV}
    (h : a.set_destination goal graph tiles blocked = some a2) :
    a2.agv_id = a.agv_id ∧ a2.pos = a.pos ∧ a2.current_job = a.current_job ∧
      a2.carrying_cart = a.carrying_cart ∧ WFa a2 := by
  unfold AGV.set_destination at h
  cases hast : astar graph a.pos goal blocked tiles with
  | none =>
    rw [hast] at h
    exact absurd h (by simp)
  | some route =>
    rw [hast] at h
    rw [← Option.some.inj h]
    refine ⟨rfl, rfl, rfl, rfl, ?_⟩
    intro _
    show route.get? 0 = some a.pos
    rw [List.get?_zero]
    exact astar_head hast

theorem pickup_cart_fields {a : AGV} {c : Cart} {graph : Graph}
    {tiles : Tiles} {blocked : List Pos} {a2 : AGV}
    (h : a.pickup_cart c graph tiles blocked = some a2) :
    a2.agv_id = a.agv_id ∧ a2.pos = a.pos ∧ a2.current_job = a.current_job ∧
      WFa a2 := by
  unfold AGV.pickup_cart at h
  cases hast : astar graph a.pos c.pos blocked tiles with
  | none =>
    rw [hast] at h
    exact absurd h (by simp)
  | some route =>
    rw [hast] at h
    rw [← Option.some.inj h]
    refine ⟨rfl, rfl, rfl, ?_⟩
    intro _
    show route.get? 0 = some a.pos
    rw [List.get?_zero]
    exact astar_head hast

theorem start_dropoff_fields {a : AGV} {goal : Pos} {graph : Graph}
    {tiles : Tiles} {blocked : List Pos} {a2 : AGV}
    (h : a.start_dropoff goal graph tiles blocked = some a2) :
    a2.agv_id = a.agv_id ∧ a2.pos = a.pos ∧ a2.current_job = a.current_job ∧
      a2.carrying_cart = a.carrying_cart ∧ WFa a2 := by
  unfold AGV.start_dropoff at h
  cases hast : astar graph a.pos goal blocked tiles with
  | none =>
    rw [hast] at h
    exact absurd h (by simp)
  | some route =>
    rw [hast] at h
    rw [← Option.some.inj h]
    refine ⟨rfl, rfl, rfl, rfl, ?_⟩
    intro _
    show route.get? 0 = some a.pos
    rw [List.get?_zero]
    exact astar_head hast

theorem reroute_fields {a : AGV} {graph : Graph} {agvs : List AGV}
    {tiles : Tiles} {a2 : AGV}
    (h : a.reroute graph agvs tiles = some a2) :
    a2.agv_id = a.agv_id ∧ a2.pos = a.pos ∧ a2.current_job = a.current_job ∧
      a2.carrying_cart = a.carrying_cart ∧ WFa a2 := by
  unfold AGV.reroute at h
  cases hgoal : (match a.target with
      | some t => some t
      | none => if a.path ≠ [] then some (a.path.getLastD a.pos) else none :
        Option Pos) with
  | none =>
    rw [hgoal] at h
    simp at h
  | some goal =>
    rw [hgoal] at h
    simp only [] at h
    cases hast : astar graph a.pos goal (otherAgvBlocked agvs a.agv_id) tiles with
    | none =>
      rw [hast] at h
      simp at h
    | some route =>
      rw [hast] at h
      simp only [] at h
      repeat' split at h
      all_goals try simp at h
      all_goals
        rw [← h]
        refine ⟨rfl, rfl, rfl, rfl, ?_⟩
        intro _
        show route.get? 0 = some a.pos
        rw [List.get?_zero]
        exact astar_head hast

/-- A clear occupancy check means no other AGV sits on the tile. -/
theorem occupied_false_no_agv {a : AGV} {agvs : List AGV}
    {carts : List Cart} {nt : Pos}
    (h : occupiedCheck a agvs carts nt = false) :
    ∀ b ∈ agvs, b.agv_id ≠ a.agv_id → b.pos ≠ nt := by
  intro b hb hid hpos
  have hany : agvs.any (fun o =>
      decide (o.agv_id ≠ a.agv_id) && decide (o.pos = nt)) = true :=
    List.any_eq_true.mpr ⟨b, hb, by simp [hid, hpos]⟩
  rw [occupiedCheck, hany] at h
  simp at h

/-- Safety of the movement loop: the id is kept, well-formedness is
maintained, and the position never moves onto another AGV's tile. -/
theorem moveLoop_safe (dt : Rat) (graph : Graph) (tiles : Tiles)
    (agvs : List AGV) : ∀ (fuel : Nat) (a : AGV) (carts : List Cart),
    WFa a → (∀ b ∈ agvs, b.agv_id ≠ a.agv_id → b.pos ≠ a.pos) →
    (moveLoop dt graph tiles agvs fuel a carts).1.agv_id = a.agv_id ∧
      WFa (moveLoop dt graph tiles agvs fuel a carts).1 ∧
      ∀ b ∈ agvs, b.agv_id ≠ a.agv_id →
        b.pos ≠ (moveLoop dt graph tiles agvs fuel a carts).1.pos := by
  intro fuel
  induction fuel with
  | zero => intro a carts hWF hdist; exact ⟨rfl, hWF, hdist⟩
  | succ n ih =>
    intro a carts hWF hdist
    simp only [moveLoop]
    by_cases hcond : a.path_progress ≥ 1 ∧ a.path_index + 1 < a.path.length
    case neg =>
      rw [if_neg hcond]
      exact ⟨rfl, hWF, hdist⟩
    case pos =>
      rw [if_pos hcond]
      by_cases hocc : occupiedCheck a agvs carts
          (a.path.getD (a.path_index + 1) a.pos) = true
      · rw [if_pos hocc]
        by_cases hg : graph ≠ [] ∧ a.just_rerouted = false
        · rw [if_pos hg]
          cases hast : astar graph a.pos (a.target.getD (a.path.getLastD a.pos))
              (otherAgvBlocked agvs a.agv_id) tiles with
          | none =>
            exact ⟨rfl, hWF, hdist⟩
          | some alt =>
            simp only []
            by_cases halt : alt.length > 1 ∧
                alt.getD 1 a.pos ≠ a.path.getD (a.path_index + 1) a.pos
            · rw [if_pos halt]
              refine ih _ _ ?_ hdist
              intro _
              show alt.get? 0 = some a.pos
              rw [List.get?_zero]
              exact astar_head hast
            · rw [if_neg halt]
              exact ⟨rfl, hWF, hdist⟩
        · rw [if_neg hg]
          exact ⟨rfl, hWF, hdist⟩
      · rw [if_neg hocc]
        have hoccf : occupiedCheck a agvs carts
            (a.path.getD (a.path_index + 1) a.pos) = false := by
          revert hocc
          cases occupiedCheck a agvs carts (a.path.getD (a.path_index + 1) a.pos)
          · intro _; rfl
          · intro hc; exact absurd rfl hc
        refine ih _ _ ?_ ?_
        · intro _
          show a.path.get? (a.path_index + 1) =
            some (a.path.getD (a.path_index + 1) a.pos)
          exact get?_getD_of_lt hcond.2 a.pos
        · intro b hb hbid
          exact occupied_false_no_agv hoccf b hb hbid

/-- `AGV.update` keeps the id, preserves path well-formedness, and
never moves onto the tile of a distinct AGV of the snapshot list. -/
theorem update_safe {a : AGV} {dt : Rat} {agvs : List AGV}
    {carts : List Cart} {graph : Graph} {tiles : Tiles}
    (hWF : WFa a) (hdist : ∀ b ∈ agvs, b.agv_id ≠ a.agv_id → b.pos ≠ a.pos) :
    (AGV.update a dt agvs carts graph tiles).1.agv_id = a.agv_id ∧
      WFa (AGV.update a dt agvs carts graph tiles).1 ∧
      ∀ b ∈ agvs, b.agv_id ≠ a.agv_id →
        b.pos ≠ (AGV.update a dt agvs carts graph tiles).1.pos := by
  simp only [AGV.update]
  split
  · split
    · exact ⟨rfl, hWF, hdist⟩
    · exact ⟨rfl, hWF, hdist⟩
  · split
    · split
      · split
        · exact ⟨rfl, hWF, hdist⟩
        · exact ⟨rfl, hWF, hdist⟩
      · exact ⟨rfl, hWF, hdist⟩
    · split
      · exact ⟨rfl, hWF, hdist⟩
      · have hsafe := moveLoop_safe dt graph tiles agvs
          (moveFuel (a.path_progress + AGV_SPEED * dt))
          { a with
            just_rerouted := false,
            path_progress := a.path_progress + AGV_SPEED * dt } carts
          hWF hdist
        rcases hml : moveLoop dt graph tiles agvs
            (moveFuel (a.path_progress + AGV_SPEED * dt))
            { a with
              just_rerouted := false,
              path_progress := a.path_progress + AGV_SPEED * dt } carts with
          ⟨a2, carts2, flag⟩
        rw [hml] at hsafe
        have hid2 : a2.agv_id = a.agv_id := hsafe.1
        have hWF2 : WFa a2 := hsafe.2.1
        have hdist2 : ∀ b ∈ agvs, b.agv_id ≠ a.agv_id → b.pos ≠ a2.pos :=
          hsafe.2.2
        cases flag with
        | true => exact ⟨hid2, hWF2, hdist2⟩
        | false =>
          simp only []
          by_cases hlen : a2.path.length ≤ a2.path_index + 1
          · rw [if_pos hlen]
            have hpos3 : a2.path.getLastD a2.pos = a2.pos := by
              by_cases hpe : a2.path = []
              · rw [hpe]; rfl
              · exact getLastD_of_get? (hWF2 hpe) hlen a2.pos
            split
            · exact ⟨hid2, fun hne => absurd rfl hne,
                fun b hb hbid hcontra =>
                  hdist2 b hb hbid (by rw [← hpos3]; exact hcontra)⟩
            · split
              · exact ⟨hid2, fun hne => absurd rfl hne,
                  fun b hb hbid hcontra =>
                    hdist2 b hb hbid (by rw [← hpos3]; exact hcontra)⟩
              · exact ⟨hid2, fun hne => absurd rfl hne,
                  fun b hb hbid hcontra =>
                    hdist2 b hb hbid (by rw [← hpos3]; exact hcontra)⟩
          · rw [if_neg hlen]
            exact ⟨hid2, hWF2, hdist2⟩

theorem eq_of_same_id {agvs : List AGV}
    (hids : (agvs.map (fun x => x.agv_id)).Nodup) {a b : AGV}
    (ha : a ∈ agvs) (hb : b ∈ agvs) (h : a.agv_id = b.agv_id) : a = b :=
  List.inj_on_of_nodup_map hids ha hb h

theorem findAgv_mem {w : World} {aid : Nat} {a : AGV}
    (h : findAgv w aid = some a) : a ∈ w.agvs ∧ a.agv_id = aid := by
  unfold findAgv at h
  refine ⟨List.mem_of_find?_eq_some h, ?_⟩
  have h2 := List.find?_some h
  simpa using h2

theorem AgvInv_of_agvs_eq {w w2 : World} (h : w2.agvs = w.agvs)
    (hw : AgvInv w) : AgvInv w2 := by
  unfold AgvInv at hw ⊢
  rw [h]
  exact hw

theorem AgvInv_map {w w2 : World} {g : AGV → AGV}
    (h : w2.agvs = w.agvs.map g)
    (hg : ∀ a ∈ w.agvs, (g a).agv_id = a.agv_id ∧ (g a).pos = a.pos ∧
      (WFa a → WFa (g a)))
    (hw : AgvInv w) : AgvInv w2 := by
  obtain ⟨hids, hpos, hwf⟩ := hw
  refine ⟨?_, ?_, ?_⟩
  · rw [h, List.map_map]
    have he : w.agvs.map ((fun x => x.agv_id) ∘ g) =
        w.agvs.map (fun x => x.agv_id) :=
      List.map_congr_left (fun a ha => (hg a ha).1)
    rw [he]
    exact hids
  · rw [h, List.map_map]
    have he : w.agvs.map ((fun x => x.pos) ∘ g) =
        w.agvs.map (fun x => x.pos) :=
      List.map_congr_left (fun a ha => (hg a ha).2.1)
    rw [he]
    exact hpos
  · intro b hb
    rw [h] at hb
    obtain ⟨a, ha, rfl⟩ := List.mem_map.mp hb
    exact (hg a ha).2.2 (hwf a ha)

theorem AgvInv_updAgv {w : World} {aid : Nat} {f : AGV → AGV}
    (hw : AgvInv w)
    (hf : ∀ a ∈ w.agvs, a.agv_id = aid →
      (f a).agv_id = a.agv_id ∧ (f a).pos = a.pos ∧ (WFa a → WFa (f a))) :
    AgvInv (updAgv w aid f) := by
  refine AgvInv_map rfl ?_ hw
  intro a ha
  by_cases hc : a.agv_id = aid
  · show (if a.agv_id = aid then f a else a).agv_id = a.agv_id ∧
      (if a.agv_id = aid then f a else a).pos = a.pos ∧
      (WFa a → WFa (if a.agv_id = aid then f a else a))
    rw [if_pos hc]
    exact hf a ha hc
  · show (if a.agv_id = aid then f a else a).agv_id = a.agv_id ∧
      (if a.agv_id = aid then f a else a).pos = a.pos ∧
      (WFa a → WFa (if a.agv_id = aid then f a else a))
    rw [if_neg hc]
    exact ⟨rfl, rfl, fun hx => hx⟩

theorem AgvInv_setAgv {w : World} {aid : Nat} {r : AGV}
    (hw : AgvInv w) (hWFr : WFa r)
    (hfields : ∀ a ∈ w.agvs, a.agv_id = aid →
      r.agv_id = a.agv_id ∧ r.pos = a.pos) :
    AgvInv (setAgv w aid r) := by
  refine AgvInv_updAgv hw ?_
  intro a ha hc
  obtain ⟨h1, h2⟩ := hfields a ha hc
  exact ⟨h1, h2, fun _ => hWFr⟩

theorem nodup_pos_replace : ∀ {agvs : List AGV} {aid : Nat} {r : AGV},
    (agvs.map (fun x => x.agv_id)).Nodup →
    (agvs.map (fun x => x.pos)).Nodup →
    (∀ b ∈ agvs, b.agv_id ≠ aid → b.pos ≠ r.pos) →
    ((agvs.map (fun x => if x.agv_id = aid then r else x)).map
      (fun x => x.pos)).Nodup := by
  intro agvs
  induction agvs with
  | nil => intro aid r _ _ _; simp
  | cons x rest ih =>
    intro aid r hids hpos hfresh
    rw [List.map_cons, List.nodup_cons] at hids hpos
    obtain ⟨hidx, hidr⟩ := hids
    obtain ⟨hpx, hpr⟩ := hpos
    rw [List.map_cons, List.map_cons, List.nodup_cons]
    by_cases hx : x.agv_id = aid
    · rw [if_pos hx]
      have hrest : rest.map (fun y => if y.agv_id = aid then r else y) =
          rest := by
        have he : ∀ y ∈ rest,
            (fun y => if y.agv_id = aid then r else y) y = id y :=
          fun y hy => if_neg (fun hc =>
            hidx (List.mem_map.mpr ⟨y, hy, by rw [hc, hx]⟩))
        rw [List.map_congr_left he, List.map_id]
      rw [hrest]
      refine ⟨?_, hpr⟩
      intro hmem
      obtain ⟨b, hb, hbpos⟩ := List.mem_map.mp hmem
      have hbid : b.agv_id ≠ aid := fun hc =>
        hidx (List.mem_map.mpr ⟨b, hb, by rw [hc, hx]⟩)
      exact hfresh b (List.mem_cons_of_mem x hb) hbid hbpos
    · rw [if_neg hx]
      refine ⟨?_, ?_⟩
      · intro hmem
        obtain ⟨c, hc, hcpos⟩ := List.mem_map.mp hmem
        obtain ⟨b, hb, rfl⟩ := List.mem_map.mp hc
        by_cases hbid : b.agv_id = aid
        · rw [if_pos hbid] at hcpos
          exact hfresh x (List.mem_cons_self x rest) hx hcpos.symm
        · rw [if_neg hbid] at hcpos
          exact hpx (List.mem_map.mpr ⟨b, hb, hcpos⟩)
      · exact ih hidr hpr (fun b hb => hfresh b (List.mem_cons_of_mem x hb))

theorem AgvInv_setAgv_move {w : World} {aid : Nat} {r : AGV}
    (hw : AgvInv w) (hid : r.agv_id = aid)
    (hfresh : ∀ b ∈ w.agvs, b.agv_id ≠ aid → b.pos ≠ r.pos)
    (hWFr : WFa r) : AgvInv (setAgv w aid r) := by
  obtain ⟨hids, hpos, hwf⟩ := hw
  refine ⟨?_, ?_, ?_⟩
  · show ((w.agvs.map (fun a => if a.agv_id = aid then r else a)).map
      (fun x => x.agv_id)).Nodup
    rw [List.map_map]
    have he : w.agvs.map
        ((fun x => x.agv_id) ∘ (fun a => if a.agv_id = aid then r else a)) =
        w.agvs.map (fun x => x.agv_id) := by
      refine List.map_congr_left ?_
      intro a ha
      show (if a.agv_id = aid then r else a).agv_id = a.agv_id
      by_cases hc : a.agv_id = aid
      · rw [if_pos hc, hid, hc]
      · rw [if_neg hc]
    rw [he]
    exact hids
  · exact nodup_pos_replace hids hpos hfresh
  · intro b hb
    have hb2 : b ∈ w.agvs.map (fun a => if a.agv_id = aid then r else a) := hb
    obtain ⟨a, ha, rfl⟩ := List.mem_map.mp hb2
    by_cases hc : a.agv_id = aid
    · rw [if_pos hc]
      exact hWFr
    · rw [if_neg hc]
      exact hwf a ha

/-- One iteration of the per-tick AGV loop keeps the invariant. -/
theorem agvStep_inv {graph : Graph} {tiles : Tiles} {dt : Rat}
    {w : World} {aid : Nat} (hw : AgvInv w) :
    AgvInv (match findAgv w aid with
      | none => w
      | some a =>
        let res := a.update dt w.agvs w.carts graph tiles
        { setAgv w aid res.1 with carts := res.2 }) := by
  cases hfind : findAgv w aid with
  | none => exact hw
  | some a =>
    obtain ⟨ha, haid⟩ := findAgv_mem hfind
    obtain ⟨hids, hpos, hwfall⟩ := hw
    have hdist : ∀ b ∈ w.agvs, b.agv_id ≠ a.agv_id → b.pos ≠ a.pos := by
      intro b hb hbid hbpos
      exact hbid (by rw [List.inj_on_of_nodup_map hpos hb ha hbpos])
    have hsafe := @update_safe a dt w.agvs w.carts graph tiles
      (hwfall a ha) hdist
    have hinner :
        AgvInv (setAgv w aid (AGV.update a dt w.agvs w.carts graph tiles).1) := by
      refine AgvInv_setAgv_move ⟨hids, hpos, hwfall⟩ ?_ ?_ hsafe.2.1
      · rw [hsafe.1]
        exact haid
      · intro b hb hbid
        refine hsafe.2.2 b hb ?_
        rw [haid]
        exact hbid
    exact AgvInv_of_agvs_eq rfl hinner

/-- Fold preservation of a world predicate. -/
theorem foldl_pres {α : Type} {P : World → Prop} {f : World → α → World}
    (hf : ∀ w x, P w → P (f w x)) :
    ∀ (l : List α) (w : World), P w → P (l.foldl f w) := by
  intro l
  induction l with
  | nil => intro w h; exact h
  | cons x xs ih => intro w h; exact ih (f w x) (hf w x h)

/-- The cancel-stuck step never disturbs the AGV invariant. -/
theorem cancelStuckOne_inv {graph : Graph} {tiles : Tiles} {w : World}
    {aid : Nat} (hw : AgvInv w) :
    AgvInv (cancelStuckOne graph tiles w aid) := by
  unfold cancelStuckOne
  cases hfind : findAgv w aid with
  | none => exact hw
  | some agv =>
    obtain ⟨ha, haid⟩ := findAgv_mem hfind
    simp only []
    split
    · exact hw
    · split
      · exact hw
      · split
        · exact hw
        · split
          · have hmid : AgvInv (updAgv w aid (fun a =>
                { a with
                  current_job := none, state := AGVState.idle,
                  path := [], path_index := 0, path_progress := 0,
                  target := none, is_blocked := false, blocked_timer := 0 })) :=
              AgvInv_updAgv hw
                (fun b _ _ => ⟨rfl, rfl, fun _ hne => absurd rfl hne⟩)
            exact AgvInv_of_agvs_eq rfl hmid
          · split
            · split
              · exact hw
              · split
                · exact hw
                · rename_i buffer hbuf a2 heq2
                  have hb2 := start_dropoff_fields heq2
                  have hmid : AgvInv (setAgv w aid
                      { a2 with blocked_timer := 0, is_blocked := false }) := by
                    refine AgvInv_setAgv hw ?_ ?_
                    · exact hb2.2.2.2.2
                    · intro b hbmem hbid
                      have hba : b = agv :=
                        eq_of_same_id hw.1 hbmem ha (by rw [hbid, haid])
                      refine ⟨?_, ?_⟩
                      · show a2.agv_id = b.agv_id
                        rw [hba]
                        exact hb2.1
                      · show a2.pos = b.pos
                        rw [hba]
                        exact hb2.2.1
                  exact AgvInv_of_agvs_eq rfl hmid
            · exact hw

theorem cancelStuckJobs_inv {graph : Graph} {tiles : Tiles} {w : World}
    (hw : AgvInv w) : AgvInv (cancelStuckJobs graph tiles w) := by
  unfold cancelStuckJobs
  exact foldl_pres (fun w aid h => cancelStuckOne_inv h) _ _ hw

/-- Job creation only touches carts, jobs and counters. -/
theorem createJobForCart_agvs {tiles : Tiles} {g : Nat → List Nat}
    {w : World} {cid : Nat} :
    (createJobForCart tiles g w cid).agvs = w.agvs := by
  simp only [createJobForCart]
  repeat' split
  all_goals rfl

theorem createJobs_inv {tiles : Tiles} {g : Nat → List Nat} {w : World}
    (hw : AgvInv w) : AgvInv (createJobs tiles g w) := by
  unfold createJobs
  exact foldl_pres
    (fun w cid h => AgvInv_of_agvs_eq createJobForCart_agvs h) _ _ hw

/-- The assignment loop dispatches AGVs in place: each accepted
dispatch replaces one AGV by its planned copy at the same position. -/
theorem assignLoop_inv {graph : Graph} {tiles : Tiles} :
    ∀ (jobs : List Job) (w : World) (free assigned : List Nat),
    AgvInv w → AgvInv (assignLoop graph tiles jobs w free assigned).1 := by
  intro jobs
  induction jobs with
  | nil => intro w free assigned hw; exact hw
  | cons job rest ih =>
    intro w free assigned hw
    simp only [assignLoop]
    split
    · exact hw
    · split
      · exact ih _ _ _ hw
      · split
        · exact ih _ _ _ hw
        · split
          · exact ih _ _ _ hw
          · rename_i xc cart heqc xb bestId heqb xa best hfind
            split
            · rename_i xp a2 heq2
              obtain ⟨hbmem, hbid⟩ := findAgv_mem hfind
              have hf := pickup_cart_fields heq2
              have hmid : AgvInv (setAgv w bestId
                  { a2 with current_job := some job.job_id }) := by
                refine AgvInv_setAgv hw ?_ ?_
                · exact hf.2.2.2
                · intro b hbm hbi
                  have hba : b = best :=
                    eq_of_same_id hw.1 hbm hbmem (by rw [hbi, hbid])
                  refine ⟨?_, ?_⟩
                  · show a2.agv_id = b.agv_id
                    rw [hba]
                    exact hf.1
                  · show a2.pos = b.pos
                    rw [hba]
                    exact hf.2.1
              exact ih _ _ _ (AgvInv_of_agvs_eq rfl hmid)
            · exact ih _ _ _ hw

theorem assignJobs_inv {graph : Graph} {tiles : Tiles} {w : World}
    (hw : AgvInv w) : AgvInv (assignJobs graph tiles w) := by
  unfold assignJobs
  simp only []
  split
  · exact hw
  · exact AgvInv_of_agvs_eq rfl (assignLoop_inv _ _ _ _ hw)

/-- Completing a job clears one AGV's job pointer and edits carts and
queues; ids, positions and paths of the AGVs are untouched. -/
theorem completeJob_inv {w : World} {job : Job} (hw : AgvInv w) :
    AgvInv (completeJob w job) := by
  unfold completeJob
  simp only []
  cases hasg : job.assigned_agv with
  | none =>
    simp only []
    refine AgvInv_of_agvs_eq ?_ hw
    repeat' split
    all_goals rfl
  | some aid =>
    simp only []
    refine @AgvInv_map w _
      (fun a => if a.agv_id = aid then { a with current_job := none } else a)
      ?_ ?_ hw
    · repeat' split
      all_goals rfl
    · intro b hb
      by_cases hc : b.agv_id = aid
      · show (if b.agv_id = aid then { b with current_job := none } else b).agv_id
            = b.agv_id ∧
          (if b.agv_id = aid then { b with current_job := none } else b).pos
            = b.pos ∧
          (WFa b →
            WFa (if b.agv_id = aid then { b with current_job := none } else b))
        rw [if_pos hc]
        exact ⟨rfl, rfl, fun h => h⟩
      · show (if b.agv_id = aid then { b with current_job := none } else b).agv_id
            = b.agv_id ∧
          (if b.agv_id = aid then { b with current_job := none } else b).pos
            = b.pos ∧
          (WFa b →
            WFa (if b.agv_id = aid then { b with current_job := none } else b))
        rw [if_neg hc]
        exact ⟨rfl, rfl, fun h => h⟩

/-- One step of the job-progress loop keeps the invariant. -/
theorem progressOne_inv {graph : Graph} {tiles : Tiles} {w : World}
    {job : Job} (hw : AgvInv w) :
    AgvInv (progressOne graph tiles w job) := by
  unfold progressOne
  cases hasg : job.assigned_agv with
  | none => exact hw
  | some aid =>
    simp only []
    cases hfind : findAgv w aid with
    | none => exact hw
    | some agv =>
      obtain ⟨ha, haid⟩ := findAgv_mem hfind
      simp only []
      split
      · have hw1 : AgvInv (setTransitState w job) := AgvInv_of_agvs_eq rfl hw
        split
        · rename_i a2 heq2
          have hf := start_dropoff_fields heq2
          refine AgvInv_setAgv hw1 hf.2.2.2.2 ?_
          intro b hbm hbi
          have hba : b = agv := eq_of_same_id hw1.1 hbm ha (by rw [hbi, haid])
          refine ⟨?_, ?_⟩
          · rw [hba]
            exact hf.1
          · rw [hba]
            exact hf.2.1
        · exact hw1
      · split
        · exact completeJob_inv hw
        · exact hw

theorem progressJobs_inv {graph : Graph} {tiles : Tiles} {w : World}
    (hw : AgvInv w) : AgvInv (progressJobs graph tiles w) := by
  unfold progressJobs
  exact foldl_pres (fun w job h => progressOne_inv h) _ _ hw

/-- One step of the blocked-AGV handler keeps the invariant: every
branch replans in place (the A* route starts at the replanned AGV's own
position) or resets timers. -/
theorem handleBlockedOne_inv {graph : Graph} {tiles : Tiles} {w : World}
    {aid : Nat} (hw : AgvInv w) :
    AgvInv (handleBlockedOne graph tiles w aid) := by
  unfold handleBlockedOne
  cases hfind : findAgv w aid with
  | none => exact hw
  | some agv =>
    obtain ⟨ha, haid⟩ := findAgv_mem hfind
    simp only []
    split
    · exact hw
    · split
      · rename_i xb blocker heqb
        have hbmem : blocker ∈ w.agvs := by
          split at heqb
          · exact List.mem_of_find?_eq_some heqb
          · exact absurd heqb (by simp)
        split
        · split
          · split
            · rename_i best hbestq b2 heq3
              have hf := set_destination_fields heq3
              have hmid : AgvInv (setAgv w blocker.agv_id b2) := by
                refine AgvInv_setAgv hw hf.2.2.2.2 ?_
                intro b hbm hbi
                have hba : b = blocker := eq_of_same_id hw.1 hbm hbmem hbi
                exact ⟨by rw [hba]; exact hf.1, by rw [hba]; exact hf.2.1⟩
              exact AgvInv_updAgv hmid (fun b _ _ => ⟨rfl, rfl, fun h => h⟩)
            · exact hw
          · exact hw
        · split
          · exact hw
          · split
            · exact hw
            · split
              · rename_i a2 heqr
                have hf := reroute_fields heqr
                refine AgvInv_setAgv hw hf.2.2.2.2 ?_
                intro b hbm hbi
                have hba : b = agv := eq_of_same_id hw.1 hbm ha (by rw [hbi, haid])
                exact ⟨by rw [hba]; exact hf.1, by rw [hba]; exact hf.2.1⟩
              · exact AgvInv_updAgv hw (fun b _ _ => ⟨rfl, rfl, fun h => h⟩)
      · split
        · exact hw
        · split
          · rename_i a2 heqr
            have hf := reroute_fields heqr
            refine AgvInv_setAgv hw hf.2.2.2.2 ?_
            intro b hbm hbi
            have hba : b = agv := eq_of_same_id hw.1 hbm ha (by rw [hbi, haid])
            exact ⟨by rw [hba]; exact hf.1, by rw [hba]; exact hf.2.1⟩
          · exact AgvInv_updAgv hw (fun b _ _ => ⟨rfl, rfl, fun h => h⟩)

theorem handleBlockedAgvs_inv {graph : Graph} {tiles : Tiles} {w : World}
    (hw : AgvInv w) : AgvInv (handleBlockedAgvs graph tiles w) := by
  unfold handleBlockedAgvs
  exact foldl_pres (fun w aid h => handleBlockedOne_inv h) _ _ hw

/-- One step of idle parking keeps the invariant. -/
theorem parkIdleOne_inv {graph : Graph} {tiles : Tiles}
    {agv_positions : List Pos} {w : World} {aid : Nat} (hw : AgvInv w) :
    AgvInv (parkIdleOne graph tiles agv_positions w aid) := by
  unfold parkIdleOne
  cases hfind : findAgv w aid with
  | none => exact hw
  | some agv =>
    obtain ⟨ha, haid⟩ := findAgv_mem hfind
    simp only []
    split
    · exact hw
    · split
      · exact hw
      · split
        · exact hw
        · split
          · split
            · rename_i best hbestq a2 heq2
              have hf := set_destination_fields heq2
              refine AgvInv_setAgv hw hf.2.2.2.2 ?_
              intro b hbm hbi
              have hba : b = agv := eq_of_same_id hw.1 hbm ha (by rw [hbi, haid])
              exact ⟨by rw [hba]; exact hf.1, by rw [hba]; exact hf.2.1⟩
            · exact hw
          · exact hw

theorem parkIdleAgvs_inv {graph : Graph} {tiles : Tiles} {w : World}
    (hw : AgvInv w) : AgvInv (parkIdleAgvs graph tiles w) := by
  unfold parkIdleAgvs
  simp only []
  exact foldl_pres (fun w aid h => parkIdleOne_inv h) _ _ hw

/-- The whole dispatcher pass keeps the AGV invariant. -/
theorem dispatcherUpdate_inv {graph : Graph} {tiles : Tiles}
    {genOrder : Nat → List Nat} {se : Rat} {w : World} (hw : AgvInv w) :
    AgvInv (dispatcherUpdate graph tiles genOrder se w) := by
  unfold dispatcherUpdate
  simp only []
  exact parkIdleAgvs_inv (handleBlockedAgvs_inv (progressJobs_inv
    (assignJobs_inv (createJobs_inv (cancelStuckJobs_inv
      (AgvInv_of_agvs_eq rfl hw))))))

/-- One full simulation tick keeps the AGV invariant. -/
theorem tick_inv {graph : Graph} {tiles : Tiles}
    {genOrder : Nat → List Nat} {dt se : Rat} {w : World} (hw : AgvInv w) :
    AgvInv (tick graph tiles genOrder dt se w) := by
  unfold tick
  simp only []
  have h1 : AgvInv ((w.agvs.map (fun a => a.agv_id)).foldl
      (fun w aid =>
        match findAgv w aid with
        | none => w
        | some a =>
          let res := a.update dt w.agvs w.carts graph tiles
          { setAgv w aid res.1 with carts := res.2 }) w) :=
    foldl_pres (fun w aid h => agvStep_inv h) _ _ hw
  exact dispatcherUpdate_inv (AgvInv_of_agvs_eq rfl h1)

/-- Claim C4: over any run of simulation ticks (sequential AGV updates
in list order, then cart updates, then the Dispatcher update), if the
AGV ids are pairwise distinct (the global id counter guarantees this),
the positions are pairwise distinct, and every AGV's path is
well-formed (`path[path_index] == pos`, vacuous for the empty paths of
a fresh placement and re-established by every planner), then after
every tick the positions of all AGVs remain pairwise distinct: the
movement rule enforces at most one AGV per tile. -/
theorem agv_positions_distinct (graph : Graph) (tiles : Tiles)
    (genOrder : Nat → List Nat) (dt : Rat) (n : Nat) (se : Rat) (w : World)
    (hids : (w.agvs.map (fun a => a.agv_id)).Nodup)
    (hpos : (w.agvs.map (fun a => a.pos)).Nodup)
    (hWF : ∀ a ∈ w.agvs, WFa a) :
    ((runTicks graph tiles genOrder dt n se w).agvs.map
      (fun a => a.pos)).Nodup := by
  have hrun : ∀ (m : Nat) (se : Rat) (w : World), AgvInv w →
      AgvInv (runTicks graph tiles genOrder dt m se w) := by
    intro m
    induction m with
    | zero => intro se w h; exact h
    | succ k ih => intro se w h; exact ih (se + dt) _ (tick_inv h)
  exact (hrun n se w ⟨hids, hpos, hWF⟩).2.1

/-- The distinctness theorem applied to a two-AGV world on the empty
map for one tick. -/
theorem agv_positions_distinct_witness :
    ((runTicks [] [] (fun _ => []) 1 1 0 c4World).agvs.map
      (fun a => a.pos)).Nodup :=
  agv_positions_distinct [] [] (fun _ => []) 1 1 0 c4World
    (by decide) (by decide) (by decide)

/-- Every queued job's target belongs to the reservation set. -/
theorem mem_targets_reserved {w : World} {j : Job}
    (hj : j ∈ w.pending_jobs ++ w.active_jobs) :
    j.target_pos ∈ reservedTiles w := by
  unfold reservedTiles
  rcases List.mem_append.mp hj with h | h
  · exact List.mem_append.mpr (Or.inl (List.mem_append.mpr
      (Or.inr (List.mem_map.mpr ⟨j, h, rfl⟩))))
  · exact List.mem_append.mpr (Or.inr (List.mem_map.mpr ⟨j, h, rfl⟩))

theorem contains_false_not_mem {l : List Pos} {p : Pos}
    (h : l.contains p = false) : ¬ p ∈ l := by
  intro hmem
  have h3 : l.contains p = true := by
    show l.elem p = true
    rw [List.elem_eq_mem]
    exact decide_eq_true hmem
  rw [h] at h3
  exact Bool.false_ne_true h3

/-- `_find_tile` only returns unreserved tiles. -/
theorem findTile_not_reserved {tiles : Tiles} {w : World} {sid : String}
    {tt : TileType} {p : Pos} (h : findTile tiles w sid tt = some p) :
    ¬ p ∈ reservedTiles w := by
  unfold findTile at h
  have h2 := List.find?_some h
  rw [Bool.not_eq_true'] at h2
  exact contains_false_not_mem h2

/-- Generic fold preservation. -/
theorem foldl_presg {α β : Type} {P : β → Prop} {f : β → α → β}
    (hf : ∀ b a, P b → P (f b a)) :
    ∀ (l : List α) (b : β), P b → P (l.foldl f b) := by
  intro l
  induction l with
  | nil => intro b h; exact h
  | cons x xs ih => intro b h; exact ih (f b x) (hf b x h)

/-- `_find_buffer_spot` only returns unreserved tiles. -/
theorem findBufferSpot_not_reserved {tiles : Tiles} {w : World} {near : Pos}
    {p : Pos} (h : findBufferSpot tiles w near = some p) :
    ¬ p ∈ reservedTiles w := by
  unfold findBufferSpot at h
  have hinv : ∀ (acc : Option (Pos × Nat)),
      (∀ q d, acc = some (q, d) → ¬ q ∈ reservedTiles w) →
      ∀ q d, tiles.foldl
        (fun best kv =>
          if kv.2.tile_type = TileType.parking ∧ kv.2.station_id = none ∧
              ¬ (reservedTiles w).contains kv.1 = true then
            match best with
            | none => some (kv.1, manhattan kv.1 near)
            | some b =>
              if manhattan kv.1 near < b.2 then some (kv.1, manhattan kv.1 near)
              else best
          else best)
        acc = some (q, d) → ¬ q ∈ reservedTiles w := by
    intro acc hacc
    refine @foldl_presg _ _
      (fun acc => ∀ q d, acc = some (q, d) → ¬ q ∈ reservedTiles w) _
      ?_ tiles acc hacc
    intro b kv hb q d hq
    revert hq
    split
    · rename_i hcond
      have hc : (reservedTiles w).contains kv.1 = false := by
        cases hcb : (reservedTiles w).contains kv.1
        · rfl
        · exact absurd hcb hcond.2.2
      have hfreshkv : ¬ kv.1 ∈ reservedTiles w := contains_false_not_mem hc
      cases b with
      | none =>
        intro hq
        have hqe : kv.1 = q := congrArg Prod.fst (Option.some.inj hq)
        rw [← hqe]
        exact hfreshkv
      | some b0 =>
        simp only []
        split
        · intro hq
          have hqe : kv.1 = q := congrArg Prod.fst (Option.some.inj hq)
          rw [← hqe]
          exact hfreshkv
        · intro hq
          exact hb q d hq
    · intro hq
      exact hb q d hq
  rcases Option.map_eq_some'.mp h with ⟨b, hb, hbp⟩
  exact hbp ▸ hinv none (fun q d hq => absurd hq (by simp)) b.1 b.2
    (by rw [← hb])

/-- The invariant transports along any shrink of the two queues. -/
theorem DispInv_of {w w2 : World}
    (hsub : ∀ j ∈ w2.pending_jobs ++ w2.active_jobs,
      j ∈ w.pending_jobs ++ w.active_jobs)
    (hn : w.next_job_id ≤ w2.next_job_id)
    (h : DispInv w) : DispInv w2 := by
  obtain ⟨hT, hI, hB⟩ := h
  refine ⟨?_, ?_, ?_⟩
  · intro j1 h1 j2 h2 ht
    exact hT j1 (hsub j1 h1) j2 (hsub j2 h2) ht
  · intro j1 h1 j2 h2 hi
    exact hI j1 (hsub j1 h1) j2 (hsub j2 h2) hi
  · intro j hj
    exact Nat.lt_of_lt_of_le (hB j (hsub j hj)) hn

/-- The invariant only reads the queues and the id counter. -/
theorem DispInv_jobs_eq {w w2 : World}
    (hp : w2.pending_jobs = w.pending_jobs)
    (ha : w2.active_jobs = w.active_jobs)
    (hn : w2.next_job_id = w.next_job_id)
    (h : DispInv w) : DispInv w2 := by
  unfold DispInv at h ⊢
  rw [hp, ha, hn]
  exact h

/-- Appending a fresh job whose target lies outside the reservation
set keeps the invariant. -/
theorem DispInv_appendJob {w : World} {jt : JobType} {cid : Nat}
    {target : Pos} {sid : Option String}
    (hfresh : ¬ target ∈ reservedTiles w)
    (h : DispInv w) : DispInv (appendJob w jt cid target sid) := by
  obtain ⟨hT, hI, hB⟩ := h
  have hmem : ∀ j ∈ (appendJob w jt cid target sid).pending_jobs ++
      (appendJob w jt cid target sid).active_jobs,
      j ∈ w.pending_jobs ++ w.active_jobs ∨
        j = { job_id := w.next_job_id, job_type := jt, cart := cid,
              target_pos := target, station_id := sid,
              assigned_agv := none } := by
    intro j hj
    rcases List.mem_append.mp hj with hp | ha
    · rcases List.mem_append.mp hp with hp2 | hp2
      · exact Or.inl (List.mem_append.mpr (Or.inl hp2))
      · exact Or.inr (List.mem_singleton.mp hp2)
    · exact Or.inl (List.mem_append.mpr (Or.inr ha))
  refine ⟨?_, ?_, ?_⟩
  · intro j1 h1 j2 h2 ht
    rcases hmem j1 h1 with hm1 | hm1 <;> rcases hmem j2 h2 with hm2 | hm2
    · exact hT j1 hm1 j2 hm2 ht
    · exact absurd (ht ▸ mem_targets_reserved hm1) (by rw [hm2]; exact hfresh)
    · exact absurd (ht ▸ mem_targets_reserved hm2) (by rw [hm1]; exact hfresh)
    · rw [hm1, hm2]
  · intro j1 h1 j2 h2 hi
    rcases hmem j1 h1 with hm1 | hm1 <;> rcases hmem j2 h2 with hm2 | hm2
    · exact hI j1 hm1 j2 hm2 hi
    · exact absurd (hi ▸ hB j1 hm1) (by rw [hm2]; exact Nat.lt_irrefl _)
    · exact absurd (hi ▸ hB j2 hm2) (by rw [hm1]; exact Nat.lt_irrefl _)
    · rw [hm1, hm2]
  · intro j hj
    rcases hmem j hj with hm | hm
    · exact Nat.lt_succ_of_lt (hB j hm)
    · rw [hm]
      exact Nat.lt_succ_self _

/-- Adding a copy of an already-queued job (under a new `assigned_agv`
value) keeps the relational invariant: the copy shares the original's
id and target. -/
theorem DispInv_addDup {w w2 : World} {job jc : Job}
    (hjob : job ∈ w.pending_jobs ++ w.active_jobs)
    (hid : jc.job_id = job.job_id) (htg : jc.target_pos = job.target_pos)
    (hsub : ∀ j ∈ w2.pending_jobs ++ w2.active_jobs,
      j ∈ w.pending_jobs ++ w.active_jobs ∨ j = jc)
    (hn : w.next_job_id ≤ w2.next_job_id)
    (h : DispInv w) : DispInv w2 := by
  obtain ⟨hT, hI, hB⟩ := h
  refine ⟨?_, ?_, ?_⟩
  · intro j1 h1 j2 h2 ht
    rcases hsub j1 h1 with hm1 | hm1 <;> rcases hsub j2 h2 with hm2 | hm2
    · exact hT j1 hm1 j2 hm2 ht
    · rw [hm2] at ht ⊢
      rw [hid]
      exact hT j1 hm1 job hjob (htg ▸ ht)
    · rw [hm1] at ht ⊢
      rw [hid]
      exact hT job hjob j2 hm2 (htg ▸ ht)
    · rw [hm1, hm2]
  · intro j1 h1 j2 h2 hi
    rcases hsub j1 h1 with hm1 | hm1 <;> rcases hsub j2 h2 with hm2 | hm2
    · exact hI j1 hm1 j2 hm2 hi
    · rw [hm2] at hi ⊢
      rw [htg]
      exact hI j1 hm1 job hjob (hid ▸ hi)
    · rw [hm1] at hi ⊢
      rw [htg]
      exact hI job hjob j2 hm2 (hid ▸ hi)
    · rw [hm1, hm2]
  · intro j hj
    rcases hsub j hj with hm | hm
    · exact Nat.lt_of_lt_of_le (hB j hm) hn
    · rw [hm, hid]
      exact Nat.lt_of_lt_of_le (hB job hjob) hn

/-- Retargeting one job id to a tile outside the reservation set keeps
the invariant (case 2 of `_cancel_stuck_jobs`). -/
theorem DispInv_retarget {w : World} {jid : Nat} {buffer : Pos}
    (hfresh : ¬ buffer ∈ reservedTiles w)
    (h : DispInv w) :
    DispInv (updJob w jid (fun j =>
      { j with target_pos := buffer, job_type := JobType.move_to_buffer })) := by
  obtain ⟨hT, hI, hB⟩ := h
  have hmem : ∀ j ∈ (updJob w jid (fun j =>
      { j with target_pos := buffer, job_type := JobType.move_to_buffer })).pending_jobs ++
      (updJob w jid (fun j =>
      { j with target_pos := buffer, job_type := JobType.move_to_buffer })).active_jobs,
      ∃ j0 ∈ w.pending_jobs ++ w.active_jobs,
        j = if j0.job_id = jid then
          { j0 with target_pos := buffer, job_type := JobType.move_to_buffer }
        else j0 := by
    intro j hj
    rcases List.mem_append.mp hj with hp | ha
    · obtain ⟨j0, hj0, rfl⟩ := List.mem_map.mp hp
      exact ⟨j0, List.mem_append.mpr (Or.inl hj0), rfl⟩
    · obtain ⟨j0, hj0, rfl⟩ := List.mem_map.mp ha
      exact ⟨j0, List.mem_append.mpr (Or.inr hj0), rfl⟩
  have hgid : ∀ (j0 : Job),
      (if j0.job_id = jid then
        { j0 with target_pos := buffer, job_type := JobType.move_to_buffer }
      else j0).job_id = j0.job_id := by
    intro j0
    by_cases hc : j0.job_id = jid
    · rw [if_pos hc]
    · rw [if_neg hc]
  refine ⟨?_, ?_, ?_⟩
  · intro j1 h1 j2 h2 ht
    obtain ⟨a, hamem, rfl⟩ := hmem j1 h1
    obtain ⟨b, hbmem, rfl⟩ := hmem j2 h2
    rw [hgid, hgid]
    by_cases hca : a.job_id = jid <;> by_cases hcb : b.job_id = jid
    · rw [hca, hcb]
    · rw [if_pos hca, if_neg hcb] at ht
      have ht2 : buffer = b.target_pos := ht
      exact absurd (by rw [ht2]; exact mem_targets_reserved hbmem) hfresh
    · rw [if_neg hca, if_pos hcb] at ht
      have ht2 : a.target_pos = buffer := ht
      exact absurd (by rw [← ht2]; exact mem_targets_reserved hamem) hfresh
    · rw [if_neg hca, if_neg hcb] at ht
      exact hT a hamem b hbmem ht
  · intro j1 h1 j2 h2 hi
    obtain ⟨a, hamem, rfl⟩ := hmem j1 h1
    obtain ⟨b, hbmem, rfl⟩ := hmem j2 h2
    rw [hgid, hgid] at hi
    by_cases hca : a.job_id = jid <;> by_cases hcb : b.job_id = jid
    · rw [if_pos hca, if_pos hcb]
    · exact absurd (hi ▸ hca) hcb
    · exact absurd (hi.symm ▸ hcb) hca
    · rw [if_neg hca, if_neg hcb]
      exact hI a hamem b hbmem hi
  · intro j hj
    obtain ⟨a, hamem, rfl⟩ := hmem j hj
    rw [hgid]
    exact hB a hamem

/-- Case 1 of `_cancel_stuck_jobs` re-queues the held job with its id
and target unchanged; case 2 retargets it to a fresh buffer tile. -/
theorem cancelStuckOne_dispinv {graph : Graph} {tiles : Tiles} {w : World}
    {aid : Nat} (hw : DispInv w) :
    DispInv (cancelStuckOne graph tiles w aid) := by
  unfold cancelStuckOne
  cases hfind : findAgv w aid with
  | none => exact hw
  | some agv =>
    simp only []
    split
    · exact hw
    · split
      · exact hw
      · rename_i xq jid heqq
        split
        · exact hw
        · rename_i xj job heqj
          split
          · have hjobmem : job ∈ w.pending_jobs ++ w.active_jobs := by
              have hm := List.mem_of_find?_eq_some heqj
              rcases List.mem_append.mp hm with h1 | h1
              · exact List.mem_append.mpr (Or.inr h1)
              · exact List.mem_append.mpr (Or.inl h1)
            refine @DispInv_addDup w _ job { job with assigned_agv := none }
              hjobmem rfl rfl ?_ (Nat.le_refl _) hw
            intro j hj
            rcases List.mem_append.mp hj with h1 | h1
            · rcases List.mem_append.mp h1 with h2 | h2
              · exact Or.inl (List.mem_append.mpr (Or.inl h2))
              · exact Or.inr (List.mem_singleton.mp h2)
            · exact Or.inl (List.mem_append.mpr
                (Or.inr (List.mem_of_mem_eraseP h1)))
          · split
            · split
              · exact hw
              · split
                · exact hw
                · rename_i xb buffer heqbuf xa a2 heq2
                  have hw1 : DispInv (setAgv w aid
                      { a2 with blocked_timer := 0, is_blocked := false }) :=
                    DispInv_jobs_eq rfl rfl rfl hw
                  have hfr : ¬ buffer ∈ reservedTiles w :=
                    findBufferSpot_not_reserved heqbuf
                  exact DispInv_retarget hfr hw1
            · exact hw

theorem cancelStuckJobs_dispinv {graph : Graph} {tiles : Tiles} {w : World}
    (hw : DispInv w) : DispInv (cancelStuckJobs graph tiles w) := by
  unfold cancelStuckJobs
  exact foldl_pres (fun w aid h => cancelStuckOne_dispinv h) _ _ hw

/-- Every job created by `_create_jobs` targets a tile chosen by
`_find_tile`/`_find_buffer_spot` outside the current reservation set. -/
theorem createJobForCart_dispinv {tiles : Tiles} {g : Nat → List Nat}
    {w : World} {cid : Nat} (hw : DispInv w) :
    DispInv (createJobForCart tiles g w cid) := by
  unfold createJobForCart
  cases hfc : findCart w cid with
  | none => exact hw
  | some cart =>
    simp only []
    cases hord : cart.order with
    | some o =>
      simp only []
      repeat' split
      all_goals
        first
          | exact hw
          | exact DispInv_appendJob (findTile_not_reserved (by assumption)) hw
          | exact DispInv_appendJob
              (findBufferSpot_not_reserved (by assumption)) hw
          | exact DispInv_jobs_eq rfl rfl rfl
              (DispInv_appendJob (findTile_not_reserved (by assumption)) hw)
          | exact DispInv_jobs_eq rfl rfl rfl
              (DispInv_appendJob
                (findBufferSpot_not_reserved (by assumption)) hw)
    | none =>
      simp only []
      repeat' split
      all_goals
        first
          | exact hw
          | exact DispInv_appendJob (findTile_not_reserved (by assumption)) hw
          | exact DispInv_appendJob
              (findBufferSpot_not_reserved (by assumption)) hw
          | exact DispInv_jobs_eq rfl rfl rfl
              (DispInv_appendJob (findTile_not_reserved (by assumption)) hw)
          | exact DispInv_jobs_eq rfl rfl rfl
              (DispInv_appendJob
                (findBufferSpot_not_reserved (by assumption)) hw)

theorem createJobs_dispinv {tiles : Tiles} {g : Nat → List Nat} {w : World}
    (hw : DispInv w) : DispInv (createJobs tiles g w) := by
  unfold createJobs
  exact foldl_pres (fun w cid h => createJobForCart_dispinv h) _ _ hw

/-- The assignment loop moves jobs from pending to active with the id
and target unchanged; removal from pending is deferred, so the moved
job transiently sits in both queues — the relational invariant holds
throughout. -/
theorem assignLoop_dispinv {graph : Graph} {tiles : Tiles} :
    ∀ (jobs : List Job) (w : World) (free assigned : List Nat),
    DispInv w → (∀ j ∈ jobs, j ∈ w.pending_jobs) →
    DispInv (assignLoop graph tiles jobs w free assigned).1 := by
  intro jobs
  induction jobs with
  | nil => intro w free assigned hw _; exact hw
  | cons job rest ih =>
    intro w free assigned hw hjobs
    simp only [assignLoop]
    split
    · exact hw
    · split
      · exact ih _ _ _ hw (fun j hj => hjobs j (List.mem_cons_of_mem job hj))
      · split
        · exact ih _ _ _ hw (fun j hj => hjobs j (List.mem_cons_of_mem job hj))
        · split
          · exact ih _ _ _ hw
              (fun j hj => hjobs j (List.mem_cons_of_mem job hj))
          · rename_i xc cart heqc xb bestId heqb xa best hfind
            split
            · rename_i xp a2 heq2
              have hjobmem : job ∈ w.pending_jobs ++ w.active_jobs :=
                List.mem_append.mpr
                  (Or.inl (hjobs job (List.mem_cons_self job rest)))
              have hw2 : DispInv { setAgv w bestId
                  { a2 with current_job := some job.job_id } with
                active_jobs := (setAgv w bestId
                  { a2 with current_job := some job.job_id }).active_jobs ++
                    [{ job with assigned_agv := some bestId }] } := by
                refine @DispInv_addDup w _ job
                  { job with assigned_agv := some bestId }
                  hjobmem rfl rfl ?_ (Nat.le_refl _) hw
                intro j hj
                rcases List.mem_append.mp hj with h1 | h1
                · exact Or.inl (List.mem_append.mpr (Or.inl h1))
                · rcases List.mem_append.mp h1 with h2 | h2
                  · exact Or.inl (List.mem_append.mpr (Or.inr h2))
                  · exact Or.inr (List.mem_singleton.mp h2)
              exact ih _ _ _ hw2
                (fun j hj => hjobs j (List.mem_cons_of_mem job hj))
            · exact ih _ _ _ hw
                (fun j hj => hjobs j (List.mem_cons_of_mem job hj))

theorem assignJobs_dispinv {graph : Graph} {tiles : Tiles} {w : World}
    (hw : DispInv w) : DispInv (assignJobs graph tiles w) := by
  unfold assignJobs
  simp only []
  split
  · exact hw
  · refine DispInv_of ?_ ?_
      (@assignLoop_dispinv graph tiles w.pending_jobs w
        (((w.agvs.filter (fun a =>
          decide (a.state = AGVState.idle) && decide (a.current_job = none) &&
            decide (a.carrying_cart = none))).take
          (MAX_CONCURRENT_DISPATCHES - w.active_jobs.length)).map
          (fun a => a.agv_id)) [] hw (fun j hj => hj))
    · intro j hj
      rcases List.mem_append.mp hj with h1 | h1
      · exact List.mem_append.mpr (Or.inl (List.mem_of_mem_filter h1))
      · exact List.mem_append.mpr (Or.inr h1)
    · exact Nat.le_refl _

/-- Job completion erases one active job and never adds a target. -/
theorem completeJob_dispinv {w : World} {job : Job} (hw : DispInv w) :
    DispInv (completeJob w job) := by
  unfold completeJob
  simp only []
  repeat' split
  all_goals
    refine DispInv_of ?_ ?_ hw
  all_goals
    first
      | exact Nat.le_refl _
      | (intro j hj
         rcases List.mem_append.mp hj with h1 | h1 <;>
           first
             | exact List.mem_append.mpr (Or.inl h1)
             | exact List.mem_append.mpr
                 (Or.inr (List.mem_of_mem_eraseP h1)))

theorem progressOne_dispinv {graph : Graph} {tiles : Tiles} {w : World}
    {job : Job} (hw : DispInv w) :
    DispInv (progressOne graph tiles w job) := by
  unfold progressOne
  simp only []
  repeat' split
  all_goals
    first
      | exact hw
      | exact completeJob_dispinv hw

theorem progressJobs_dispinv {graph : Graph} {tiles : Tiles} {w : World}
    (hw : DispInv w) : DispInv (progressJobs graph tiles w) := by
  unfold progressJobs
  exact foldl_pres (fun w job h => progressOne_dispinv h) _ _ hw

theorem handleBlockedOne_dispinv {graph : Graph} {tiles : Tiles} {w : World}
    {aid : Nat} (hw : DispInv w) :
    DispInv (handleBlockedOne graph tiles w aid) := by
  unfold handleBlockedOne
  simp only []
  repeat' split
  all_goals exact hw

theorem handleBlockedAgvs_dispinv {graph : Graph} {tiles : Tiles} {w : World}
    (hw : DispInv w) : DispInv (handleBlockedAgvs graph tiles w) := by
  unfold handleBlockedAgvs
  exact foldl_pres (fun w aid h => handleBlockedOne_dispinv h) _ _ hw

theorem parkIdleOne_dispinv {graph : Graph} {tiles : Tiles}
    {agv_positions : List Pos} {w : World} {aid : Nat} (hw : DispInv w) :
    DispInv (parkIdleOne graph tiles agv_positions w aid) := by
  unfold parkIdleOne
  try simp only []
  repeat' split
  all_goals exact hw

theorem parkIdleAgvs_dispinv {graph : Graph} {tiles : Tiles} {w : World}
    (hw : DispInv w) : DispInv (parkIdleAgvs graph tiles w) := by
  unfold parkIdleAgvs
  simp only []
  exact foldl_pres (fun w aid h => parkIdleOne_dispinv h) _ _ hw

/-- Every dispatcher pass keeps the target-uniqueness invariant. -/
theorem dispatcherUpdate_dispinv {graph : Graph} {tiles : Tiles}
    {genOrder : Nat → List Nat} {se : Rat} {w : World} (hw : DispInv w) :
    DispInv (dispatcherUpdate graph tiles genOrder se w) := by
  unfold dispatcherUpdate
  simp only []
  exact parkIdleAgvs_dispinv (handleBlockedAgvs_dispinv (progressJobs_dispinv
    (assignJobs_dispinv (createJobs_dispinv (cancelStuckJobs_dispinv
      (DispInv_jobs_eq rfl rfl rfl hw))))))

/-- Claim C8: across a Dispatcher update (job creation, assignment and
stuck-job handling), any two pending-or-active jobs sharing a target
tile are the same job (the same id from the global job counter; the
only duplication the update ever creates is the assigned job's own
deferred copy during `_assign_jobs`).  Every created or retargeted job
takes its tile from `_find_tile`/`_find_buffer_spot`, which select
outside the reservation set, and that set contains the targets of all
pending and active jobs. -/
theorem dispatcher_targets_unique (graph : Graph) (tiles : Tiles)
    (genOrder : Nat → List Nat) (se : Rat) (w : World) (hw : DispInv w) :
    TargetsOk ((dispatcherUpdate graph tiles genOrder se w).pending_jobs ++
      (dispatcherUpdate graph tiles genOrder se w).active_jobs) ∧
      DispInv (dispatcherUpdate graph tiles genOrder se w) :=
  (fun h => ⟨h.1, h⟩) (dispatcherUpdate_dispinv hw)

/-- The C8 theorem applied to a world holding one pending and one
active job with distinct targets. -/
theorem dispatcher_targets_unique_witness :
    TargetsOk ((dispatcherUpdate [] [] (fun _ => []) 0 c8World).pending_jobs ++
      (dispatcherUpdate [] [] (fun _ => []) 0 c8World).active_jobs) ∧
      DispInv (dispatcherUpdate [] [] (fun _ => []) 0 c8World) :=
  dispatcher_targets_unique [] [] (fun _ => []) 0 c8World (by decide)

end WarehouseSim
